import Mathlib

/-!
# cgmap: mapping an all-atom trajectory onto coarse-grained beads

A shallow embedding of `obj_Cgmap` from `src/cgmap/cgmap.cpp`.

Modelling conventions.

* `float` values are rationals: every statement about centroids is a statement in exact
  arithmetic.
* `std::vector` and the coordinate byte arrays are lists.  A read outside a list yields `0`
  and a write outside a list is dropped; the theorems that speak about values read or written
  assume the accesses are inside the buffers.
* `unsigned int` arithmetic wraps modulo `2^32`.  The two `int` variables that the frame loop
  advances, `frame` (by `frame += stride`) and `append_frame` (by `append_frame++`), wrap
  around as 32-bit two's complement values (`wrapInt`), which is what the compiled code does
  when the sum leaves the range of `int`.  The other `int` values are integers.
* The Tcl interpreter is a parameter (`Host`): every script the frame loop evaluates is
  recorded in a trace, and the host decides, from the scripts evaluated so far, whether the
  evaluation succeeds and which coordinate buffer it returns.
* Loops carry a fuel argument that bounds the number of times the loop body may run; `none`
  means that the fuel was exhausted while the loop condition still held.
-/

namespace Cgmap

/-! ## Per-atom data and the bead loop -/

/-- The local variables of `obj_Cgmap` that are fixed once the frame loop starts. -/
structure Vars where
  molid : Int
  append_molid : Int
  first : Int
  last : Int
  stride : Int
  nframes : Int
  natoms : Int
  weight : List ℚ
  bead : List Int
  index : List Int
  append_frame : Int
  deriving Repr

/-- Conversion `int -> unsigned int` of `unsigned int idx = index[current_atom]`. -/
def toUnsigned (i : Int) : Nat := (i % 4294967296).toNat

/-- A sum of two `int` values as the compiled code stores it in an `int`: reduced modulo
`2^32` into the range `-2^31 .. 2^31 - 1`. -/
def wrapInt (i : Int) : Int := (i + 2147483648) % 4294967296 - 2147483648

/-- The `unsigned int` expression `3*idx + c`. -/
def offset3 (idx c : Nat) : Nat := (3 * idx + c) % 4294967296

/-- The accumulators `w, x, y, z` of the bead loop. -/
structure Acc where
  w : ℚ
  x : ℚ
  y : ℚ
  z : ℚ
  deriving DecidableEq, Repr

/-- The inner loop `for (current_atom = start_atom; current_atom < natoms &&
bead[current_atom] == current_bead; current_atom++)`: returns the final `current_atom`
and the accumulators. -/
def comLoop (v : Vars) (coords : List ℚ) (current_bead : Int) :
    Nat → Nat → Acc → Option (Nat × Acc)
  | 0, current_atom, acc =>
    if (current_atom : Int) < v.natoms ∧ v.bead.getD current_atom 0 = current_bead then none
    else some (current_atom, acc)
  | fuel + 1, current_atom, acc =>
    if (current_atom : Int) < v.natoms ∧ v.bead.getD current_atom 0 = current_bead then
      let idx := toUnsigned (v.index.getD current_atom 0)
      let tw := v.weight.getD current_atom 0
      comLoop v coords current_bead fuel (current_atom + 1)
        { w := acc.w + tw
          x := acc.x + tw * coords.getD (offset3 idx 0) 0
          y := acc.y + tw * coords.getD (offset3 idx 1) 0
          z := acc.z + tw * coords.getD (offset3 idx 2) 0 }
    else some (current_atom, acc)

/-- State of the bead loop when it is left: `ok = false` is the exit through
`"Cgmap: Bad weight can't total zero"`; `j` is the bead counter and `coords_append`
the destination buffer at that point. -/
structure BeadResult where
  ok : Bool
  j : Nat
  coords_append : List ℚ
  deriving DecidableEq, Repr

/-- The three stores `coords_append[3*j] = x/w`, `[3*j+1] = y/w`, `[3*j+2] = z/w`. -/
def storeBead (coords_append : List ℚ) (j : Nat) (acc : Acc) : List ℚ :=
  ((coords_append.set (3 * j) (acc.x / acc.w)).set (3 * j + 1) (acc.y / acc.w)).set
    (3 * j + 2) (acc.z / acc.w)

/-- The bead loop `for (int start_atom = 0; start_atom < natoms; )` with its counter `j`. -/
def beadLoop (v : Vars) (coords : List ℚ) : Nat → Nat → Nat → List ℚ → Option BeadResult
  | 0, start_atom, j, coords_append =>
    if (start_atom : Int) < v.natoms then none
    else some { ok := true, j := j, coords_append := coords_append }
  | fuel + 1, start_atom, j, coords_append =>
    if (start_atom : Int) < v.natoms then
      let current_bead := v.bead.getD start_atom 0
      match comLoop v coords current_bead v.natoms.toNat start_atom ⟨0, 0, 0, 0⟩ with
      | none => none
      | some (current_atom, acc) =>
        if acc.w = 0 then some { ok := false, j := j, coords_append := coords_append }
        else beadLoop v coords fuel current_atom (j + 1) (storeBead coords_append j acc)
    else some { ok := true, j := j, coords_append := coords_append }

/-! ## Specification side: runs of atoms and their centroids, in the words of the claims -/

/-- One selected atom: its weight, group label and physical index. -/
structure Atom where
  weight : ℚ
  groupLabel : Int
  physicalIndex : Int
  deriving DecidableEq, Repr

/-- Atom `i` of the selection. -/
def atomAt (v : Vars) (i : Nat) : Atom :=
  { weight := v.weight.getD i 0, groupLabel := v.bead.getD i 0,
    physicalIndex := v.index.getD i 0 }

/-- The selected atoms `0 .. natoms-1` in selection order. -/
def atoms (v : Vars) : List Atom :=
  (List.range v.natoms.toNat).map (atomAt v)

/-- The maximal contiguous runs of equal `groupLabel`, in selection order. -/
def runs (v : Vars) : List (List Atom) :=
  (atoms v).splitBy (fun a b => a.groupLabel == b.groupLabel)

/-- Sum of the weights of a run. -/
def totalWeight (r : List Atom) : ℚ := (r.map (fun a => a.weight)).sum

/-- Sum over a run of `weight[i] * source[3*physicalIndex[i] + c]`. -/
def weightedSum (source : List ℚ) (c : Nat) (r : List Atom) : ℚ :=
  (r.map (fun a => a.weight * source.getD (3 * a.physicalIndex.toNat + c) 0)).sum

/-- Sum over a run of `source[3*physicalIndex[i] + c]`. -/
def coordSum (source : List ℚ) (c : Nat) (r : List Atom) : ℚ :=
  (r.map (fun a => source.getD (3 * a.physicalIndex.toNat + c) 0)).sum

/-! ## Auxiliary definitions for the statements and proofs about the bead loop -/

/-- Index in the selection of the first atom of run `j`. -/
def runStart (v : Vars) (j : Nat) : Nat := ((runs v).take j).flatten.length

/-- Component `c` (0, 1, 2 for x, y, z) of the accumulators. -/
def Acc.coord (acc : Acc) (c : Nat) : ℚ :=
  match c with
  | 0 => acc.x
  | 1 => acc.y
  | _ => acc.z

/-- The per-atom vectors all have `natoms` entries. -/
def WellSized (v : Vars) : Prop :=
  (v.weight.length : Int) = v.natoms ∧ (v.bead.length : Int) = v.natoms ∧
    (v.index.length : Int) = v.natoms

/-- Every physical index addresses a coordinate triple inside `source`, whose length fits an
`unsigned int`. -/
def InBounds (v : Vars) (source : List ℚ) : Prop :=
  source.length ≤ 4294967296 ∧
    ∀ i ∈ v.index, 0 ≤ i ∧ 3 * i.toNat + 2 < source.length

instance (v : Vars) : Decidable (WellSized v) := by
  unfold WellSized
  exact inferInstance

instance (v : Vars) (source : List ℚ) : Decidable (InBounds v source) := by
  unfold InBounds
  exact inferInstance

/-- Sum over a run of `weight[i] * source[3*idx + c]` with the offset computed in
`unsigned int`, as the inner loop does. -/
def wrappedSum (source : List ℚ) (c : Nat) (r : List Atom) : ℚ :=
  (r.map (fun a => a.weight * source.getD (offset3 (toUnsigned a.physicalIndex) c) 0)).sum

/-- The accumulators after adding the atoms of `r` to `acc`. -/
def accAdd (source : List ℚ) (acc : Acc) (r : List Atom) : Acc :=
  { w := acc.w + totalWeight r
    x := acc.x + wrappedSum source 0 r
    y := acc.y + wrappedSum source 1 r
    z := acc.z + wrappedSum source 2 r }

/-- Walk over a list of runs the way the bead loop does: stop at the first run of total
weight zero, otherwise store the run's centroid as bead `j` and go on. -/
def writeRuns (source : List ℚ) : List (List Atom) → Nat → List ℚ → BeadResult
  | [], j, d => { ok := true, j := j, coords_append := d }
  | r :: rs, j, d =>
    if totalWeight r = 0 then { ok := false, j := j, coords_append := d }
    else writeRuns source rs (j + 1) (storeBead d j (accAdd source ⟨0, 0, 0, 0⟩ r))

/-! ## The Tcl host and the frame loop -/

/-- The scripts of the frame loop. `animate_dup` is the script `"animate dup %i"` that the
loop builds with `Tcl_ObjPrintf`; `rawtimestep` is the command vector `set_ts`. -/
inductive Cmd where
  /-- The script `vmdcon -info "CGit> Mapping frame %i"`. -/
  | vmdcon_info (frame : Int)
  /-- The script `molinfo top set frame %i`. -/
  | molinfo_top_set_frame (frame : Int)
  /-- The script `gettimestep %d %i`. -/
  | gettimestep (molid frame : Int)
  /-- The script `animate dup %i`. -/
  | animate_dup (molid : Int)
  /-- The script `molinfo %i set frame %i; display update`. -/
  | molinfo_set_frame (molid frame : Int)
  /-- The script that copies the box: `molinfo %i set ... [molinfo %i get ...]`. -/
  | molinfo_set_pbc (append_molid molid : Int)
  /-- The command `rawtimestep <molid> <bytes> -frame <frame>`. -/
  | rawtimestep (molid : Int) (bytes : List ℚ) (frame : Int)
  deriving DecidableEq, Repr

/-- The Tcl interpreter as `obj_Cgmap` uses it. `none` is a result different from `TCL_OK`.
`Tcl_EvalObjEx trace c` evaluates `c` after the scripts of `trace` and yields the byte array
left in the interpreter result (read as floats). The queries made before the frame loop are
separate fields; `sel_get_float` and `sel_get_int` include `parse_vector` / `parse_ivector`,
whose failure (`-1`) is the inner `none`. -/
structure Host where
  Tcl_GetIntFromObj : String → Option Int
  atomselect_all : Int → Option String
  sel_molid : String → Option String
  molinfo_numframes : Int → Option String
  sel_num : String → Option String
  sel_get_float : String → String → Option (Option (List ℚ))
  sel_get_int : String → String → Option (Option (List Int))
  molinfo_frame : Int → Option String
  molinfo_numatoms : Int → Option String
  Tcl_EvalObjEx : List Cmd → Cmd → Option (List ℚ)

/-- Return code `TCL_OK`. -/
def TCL_OK : Int := 0

/-- Return code `TCL_ERROR`. -/
def TCL_ERROR : Int := 1

/-- What `obj_Cgmap` leaves behind when it returns: the return code, the interpreter result
when the function set it with `Tcl_SetResult` (`none`: left as the failing call set it), the
scripts evaluated by the frame loop so far, and the buffer `coords_append` points to. -/
structure Outcome where
  code : Int
  result : Option String
  trace : List Cmd
  coords_append : List ℚ
  deriving DecidableEq, Repr

/-- One pass through the body of the frame loop either returns from the function or reaches
the end of the body. -/
inductive Step where
  | abort (o : Outcome)
  | next (append_frame : Int) (trace : List Cmd) (coords_append : List ℚ)
  deriving DecidableEq, Repr

/-- The body of the frame loop for source frame `frame`.

The second `Tcl_EvalObjEx(interp, get_ts, ...)` evaluates the script `animate dup %i`:
`get_ts` is created with reference count 0, so the first `Tcl_EvalObjEx` (which holds a
reference for the time of the evaluation) releases it on return; the object that
`Tcl_ObjPrintf("animate dup %i", append_molid)` creates next is the one just released, and
the pointer `get_ts` designates it. -/
def frameBody (h : Host) (v : Vars) (print frame append_frame : Int) (trace : List Cmd)
    (coords_append : List ℚ) : Option Step :=
  let msg := Cmd.vmdcon_info frame
  let t1 := trace ++ (if frame.tmod print = 0 then [msg] else [])
  if frame.tmod print = 0 ∧ h.Tcl_EvalObjEx trace msg = none then
    some (.abort ⟨TCL_ERROR, none, t1, coords_append⟩)
  else
    let mol_chgframe := Cmd.molinfo_top_set_frame frame
    let t2 := t1 ++ [mol_chgframe]
    match h.Tcl_EvalObjEx t1 mol_chgframe with
    | none => some (.abort ⟨TCL_ERROR, none, t2, coords_append⟩)
    | some _ =>
      let get_ts := Cmd.gettimestep v.molid frame
      let t3 := t2 ++ [get_ts]
      match h.Tcl_EvalObjEx t2 get_ts with
      | none =>
        some (.abort ⟨TCL_ERROR, some "Cgmap: error getting coordinates", t3, coords_append⟩)
      | some coords =>
        -- `get_ts` now designates the object made by `Tcl_ObjPrintf("animate dup %i", ...)`
        let get_ts := Cmd.animate_dup v.append_molid
        let t4 := t3 ++ [get_ts]
        match h.Tcl_EvalObjEx t3 get_ts with
        | none =>
          some (.abort ⟨TCL_ERROR, some "Cgmap: error adding frame to append mol", t4,
            coords_append⟩)
        | some _ =>
          let append_frame := wrapInt (append_frame + 1)
          let setframe := Cmd.molinfo_set_frame v.molid frame
          let t5 := t4 ++ [setframe]
          match h.Tcl_EvalObjEx t4 setframe with
          | none =>
            some (.abort ⟨TCL_ERROR, some "Cgmap: error updating source frame", t5,
              coords_append⟩)
          | some _ =>
            let setpbc := Cmd.molinfo_set_pbc v.append_molid v.molid
            let t6 := t5 ++ [setpbc]
            match h.Tcl_EvalObjEx t5 setpbc with
            | none =>
              some (.abort ⟨TCL_ERROR, some "Cgmap: error updating PBC", t6, coords_append⟩)
            | some _ =>
              let get_ts := Cmd.gettimestep v.append_molid append_frame
              let t7 := t6 ++ [get_ts]
              match h.Tcl_EvalObjEx t6 get_ts with
              | none =>
                some (.abort ⟨TCL_ERROR, some "Cgmap: error getting coordinates", t7,
                  coords_append⟩)
              | some bytes_append =>
                match beadLoop v coords v.natoms.toNat 0 0 bytes_append with
                | none => none
                | some r =>
                  if r.ok = false then
                    some (.abort ⟨TCL_ERROR, some "Cgmap: Bad weight can't total zero", t7,
                      r.coords_append⟩)
                  else
                    let set_ts := Cmd.rawtimestep v.append_molid r.coords_append append_frame
                    let t8 := t7 ++ [set_ts]
                    match h.Tcl_EvalObjEx t7 set_ts with
                    | none => some (.abort ⟨TCL_ERROR, none, t8, r.coords_append⟩)
                    | some _ => some (.next append_frame t8 r.coords_append)

/-- The frame loop `for (int frame = first; frame <= last && frame < nframes;
frame += stride)` followed by the final `return TCL_OK`.  The sum `frame += stride` is
stored in the `int` variable `frame`. -/
def frameLoop (h : Host) (v : Vars) (last print : Int) :
    Nat → Int → Int → List Cmd → List ℚ → Option Outcome
  | 0, frame, _, trace, coords_append =>
    if frame ≤ last ∧ frame < v.nframes then none
    else some ⟨TCL_OK, some "", trace, coords_append⟩
  | fuel + 1, frame, append_frame, trace, coords_append =>
    if frame ≤ last ∧ frame < v.nframes then
      match frameBody h v print frame append_frame trace coords_append with
      | none => none
      | some (.abort o) => some o
      | some (.next append_frame trace coords_append) =>
        frameLoop h v last print fuel (wrapInt (frame + v.stride)) append_frame trace
          coords_append
    else some ⟨TCL_OK, some "", trace, coords_append⟩

/-- The statement `if ( last == -1 || last > nframes || last < first ) last = nframes;`. -/
def normalizeLast (first last nframes : Int) : Int :=
  if last = -1 ∨ last > nframes ∨ last < first then nframes else last

/-- The value of `print`: `(last - first) / 10`, raised to 10 and capped at 100. -/
def printInterval (first last : Int) : Int :=
  let print := (last - first).tdiv 10
  let print := if print < 10 then 10 else print
  if print > 100 then 100 else print

/-- The part of `obj_Cgmap` that follows the check of `first`, without the queries to the
host made in between: `last` is normalized, `print` is computed, and the frame loop runs. -/
def mapFrames (h : Host) (v : Vars) (fuel : Nat) : Option Outcome :=
  let last := normalizeLast v.first v.last v.nframes
  let print := printInterval v.first last
  frameLoop h v last print fuel v.first v.append_frame [] []

/-! ## Argument parsing and the whole command -/

/-- The test `!strncmp(s, t, n)` on NUL-terminated strings, given without the NUL.  The
strings are compared character by character; against the ASCII names of the options this
agrees with the comparison of bytes. -/
def strncmpEq : List Char → List Char → Nat → Bool
  | _, _, 0 => true
  | [], [], _ + 1 => true
  | [], _ :: _, _ + 1 => false
  | _ :: _, [], _ + 1 => false
  | a :: s, b :: t, n + 1 => a == b && strncmpEq s t n

/-- The branches of the argument loop. -/
inductive Opt where
  | molid | append | sel | first | last | stride | weight | blockid | order
  deriving DecidableEq, Repr

/-- The chain of `strncmp` tests of the argument loop: the branch taken for `cmd`, or `none`
for the final `else`. -/
def matchOpt (cmd : String) : Option Opt :=
  if strncmpEq cmd.toList "-molid".toList 7 then some .molid
  else if strncmpEq cmd.toList "-append".toList 8 then some .append
  else if strncmpEq cmd.toList "-sel".toList 5 then some .sel
  else if strncmpEq cmd.toList "-first".toList 5 then some .first
  else if strncmpEq cmd.toList "-last".toList 4 then some .last
  else if strncmpEq cmd.toList "-stride".toList 6 then some .stride
  else if strncmpEq cmd.toList "-weight".toList 7 then some .weight
  else if strncmpEq cmd.toList "-blockid".toList 7 then some .blockid
  else if strncmpEq cmd.toList "-order".toList 6 then some .order
  else none

/-- The variables set by the argument loop. -/
structure Args where
  molid : Int
  append_molid : Int
  sel : Option String
  first : Int
  last : Int
  stride : Int
  weight_field : String
  blockid_field : String
  order_field : String
  deriving DecidableEq, Repr

/-- The initial values of the variables set by the argument loop. -/
def Args.init : Args :=
  { molid := 0, append_molid := 0, sel := none, first := 0, last := 0, stride := 1,
    weight_field := "user3", blockid_field := "user", order_field := "user2" }

/-- Ways in which the argument loop does not reach the code after it. -/
inductive ParseError where
  /-- The loop returned `TCL_ERROR`. -/
  | tclError
  /-- The loop read `objv[n+1]` with `n+1 = argc`. -/
  | readPastEnd
  deriving DecidableEq, Repr

/-- The argument loop `while (n < argc)`, on the arguments from `objv[n]` on. -/
def parseArguments (h : Host) : List String → Args → Except ParseError Args
  | [], a => .ok a
  | [cmd], _ =>
    match matchOpt cmd with
    | none => .error .tclError
    | some _ => .error .readPastEnd
  | cmd :: val :: rest, a =>
    match matchOpt cmd with
    | none => .error .tclError
    | some .molid =>
      match h.Tcl_GetIntFromObj val with
      | none => .error .tclError
      | some i => parseArguments h rest { a with molid := i }
    | some .append =>
      match h.Tcl_GetIntFromObj val with
      | none => .error .tclError
      | some i => parseArguments h rest { a with append_molid := i }
    | some .sel => parseArguments h rest { a with sel := some val }
    | some .first =>
      match h.Tcl_GetIntFromObj val with
      | none => .error .tclError
      | some i => parseArguments h rest { a with first := i }
    | some .last =>
      match h.Tcl_GetIntFromObj val with
      | none => .error .tclError
      | some i => parseArguments h rest { a with last := i }
    | some .stride =>
      match h.Tcl_GetIntFromObj val with
      | none => .error .tclError
      | some i => parseArguments h rest { a with stride := i }
    | some .weight => parseArguments h rest { a with weight_field := val }
    | some .blockid => parseArguments h rest { a with blockid_field := val }
    | some .order => parseArguments h rest { a with order_field := val }

/-- An error return of `obj_Cgmap` before the frame loop. -/
def failure (result : Option String) : Outcome :=
  { code := TCL_ERROR, result := result, trace := [], coords_append := [] }

/-- The selection object and the molecule id after the block `if (!sel) ... else ...`. -/
def selectAtoms (h : Host) (a : Args) : Except Outcome (String × Int) :=
  match a.sel with
  | none =>
    match h.atomselect_all a.molid with
    | none => .error (failure (some "Cgmap: error calling atomselect"))
    | some atomselect => .ok (atomselect, a.molid)
  | some sel =>
    match h.sel_molid sel with
    | none => .error (failure (some "Cgmap: error calling atomselect"))
    | some molid_result =>
      match h.Tcl_GetIntFromObj molid_result with
      | none => .error (failure none)
      | some molid => .ok (sel, molid)

/-- The queries between the check of `first` and the frame loop: number of atoms, weights,
bead ids, atom order and the current frame and number of atoms of the target molecule. -/
def queryAtoms (h : Host) (a : Args) (atomselect : String) :
    Except Outcome (Int × List ℚ × List Int × List Int × Int) :=
  match h.sel_num atomselect with
  | none => .error (failure (some "Cgmap: error calling atomselect"))
  | some object =>
    match h.Tcl_GetIntFromObj object with
    | none => .error (failure (some "Cgmap: error parsing number of atoms"))
    | some natoms =>
      if natoms = 0 then
        .error (failure (some "Cgmap: Selection or molecule contains no atoms"))
      else
        match h.sel_get_float atomselect a.weight_field with
        | none => .error (failure (some "Cgmap: error calling atomselect for weights"))
        | some none => .error (failure (some "Cgmap: error parsing atomselect result"))
        | some (some weight) =>
          match h.sel_get_int atomselect a.blockid_field with
          | none => .error (failure (some "Cgmap: error calling atomselect for blocks"))
          | some none => .error (failure (some "Cgmap: error parsing atomselect result"))
          | some (some bead) =>
            match h.sel_get_int atomselect a.order_field with
            | none => .error (failure (some "Cgmap: error calling atomselect for order"))
            | some none => .error (failure (some "Cgmap: error parsing atomselect result"))
            | some (some index) =>
              match h.molinfo_frame a.append_molid with
              | none =>
                .error (failure (some "Cgmap: error getting append mol's current frame"))
              | some object =>
                match h.Tcl_GetIntFromObj object with
                | none =>
                  .error (failure (some "Cgmap: error parsing append mol's current frame"))
                | some append_frame =>
                  match h.molinfo_numatoms a.append_molid with
                  | none =>
                    .error (failure
                      (some "Cgmap: error getting append mol's number of atoms"))
                  | some object =>
                    match h.Tcl_GetIntFromObj object with
                    | none =>
                      .error (failure
                        (some "Cgmap: error parsing append mol's number of atoms"))
                    | some _ => .ok (natoms, weight, bead, index, append_frame)

/-- The command `::CGit::cgmap`. `objv` holds the words of the call, `objv[0]` included.
`none`: the frame loop was stopped by the fuel, or the argument loop read `objv[argc]`. -/
def obj_Cgmap (h : Host) (objv : List String) (fuel : Nat) : Option Outcome :=
  match parseArguments h objv.tail Args.init with
  | .error .readPastEnd => none
  | .error .tclError => some (failure none)
  | .ok a =>
    match selectAtoms h a with
    | .error o => some o
    | .ok (atomselect, molid) =>
      match h.molinfo_numframes molid with
      | none => some (failure (some "Cgmap: error calling molinfo for nframes"))
      | some object =>
        match h.Tcl_GetIntFromObj object with
        | none => some (failure (some "Cgmap: error parsing number of frames"))
        | some nframes =>
          if a.first < 0 ∨ a.first ≥ nframes then
            some (failure (some "Cgmap: illegal value of first_frame"))
          else
            match queryAtoms h a atomselect with
            | .error o => some o
            | .ok (natoms, weight, bead, index, append_frame) =>
              mapFrames h
                { molid := molid, append_molid := a.append_molid, first := a.first,
                  last := a.last, stride := a.stride, nframes := nframes, natoms := natoms,
                  weight := weight, bead := bead, index := index,
                  append_frame := append_frame } fuel

/-! ## Reading a trace -/

/-- The source frames for which the loop issued `molinfo top set frame`, in order. -/
def framesOf (trace : List Cmd) : List Int :=
  trace.filterMap fun c =>
    match c with
    | .molinfo_top_set_frame f => some f
    | _ => none

/-- Holds for the scripts `vmdcon -info ...`. -/
def Cmd.isNotice : Cmd → Bool
  | .vmdcon_info _ => true
  | _ => false

/-- A trace without its `vmdcon` scripts. -/
def quietTrace (trace : List Cmd) : List Cmd :=
  trace.filter fun c => !c.isNotice

/-- An outcome with the `vmdcon` scripts removed from its trace. -/
def Outcome.quiet (o : Outcome) : Outcome :=
  { o with trace := quietTrace o.trace }

/-- A step with the `vmdcon` scripts removed from its trace. -/
def Step.quiet : Step → Step
  | .abort o => .abort o.quiet
  | .next append_frame trace coords_append => .next append_frame (quietTrace trace) coords_append

/-- The interval of the notices of a job: `print` as computed from `first` and the
normalized `last`. -/
def interval (v : Vars) : Int :=
  printInterval v.first (normalizeLast v.first v.last v.nframes)

/-- The exclusive upper bound `min(last', nframes - 1) + 1` of the frames, `last'` being the
normalized `last`. -/
def upperBound (v : Vars) : Int :=
  min (normalizeLast v.first v.last v.nframes) (v.nframes - 1) + 1

/-- The number `ceil((upperBound - first) / stride)` of frames to map. -/
def iterations (v : Vars) : Nat :=
  ((upperBound v - v.first + v.stride - 1) / v.stride).toNat

/-- The frames `first + k*stride`, `k = 0, 1, ...`, below the upper bound. -/
def schedule (v : Vars) : List Int :=
  (List.range (iterations v)).map (fun k : Nat => v.first + (k : Int) * v.stride)

/-- Variables of a job over the given per-atom vectors: source molecule 0, target molecule 1,
frame bounds `first`, `last`, `stride`, and a source trajectory of `nframes` frames. -/
def jobOf (weight : List ℚ) (bead index : List Int) (first last stride nframes : Int) : Vars :=
  { molid := 0, append_molid := 1, first := first, last := last, stride := stride,
    nframes := nframes, natoms := weight.length, weight := weight, bead := bead,
    index := index, append_frame := 0 }

/-- The four atoms of the worked example: two beads of two atoms each. -/
def exampleVars : Vars := jobOf [1, 1, 2, 2] [0, 0, 1, 1] [0, 1, 2, 3] 0 (-1) 1 1

/-- The coordinates `(0,0,0), (2,0,0), (0,0,0), (4,0,0)` of the worked example. -/
def exampleCoords : List ℚ := [0, 0, 0, 2, 0, 0, 0, 0, 0, 4, 0, 0]

/-- Two single-atom beads, the first of weight zero. -/
def zeroFirstVars : Vars := jobOf [0, 1] [0, 1] [0, 1] 0 (-1) 1 1

/-- Coordinates `(0,0,0), (5,0,0)`. -/
def twoAtomCoords : List ℚ := [0, 0, 0, 5, 0, 0]

/-- A single-atom job with `first = 1`, `stride = 2^31 - 1` over a source trajectory of
`nframes` frames. -/
def wideStrideVars (nframes : Int) : Vars := jobOf [1] [0] [0] 1 (-1) 2147483647 nframes

/-- The decimal strings `"0"` to `"9"`. -/
def digits : List String := ["0", "1", "2", "3", "4", "5", "6", "7", "8", "9"]

/-- The integer written by one decimal digit. -/
def readDigit (s : String) : Option Int :=
  (digits.indexOf? s).map fun i => (i : Int)

/-- The decimal digit that writes an integer from 0 to 9. -/
def showDigit (i : Int) : String := digits.getD i.toNat ""

/-- A host that never fails: `gettimestep` on molecule 0 yields `source`, on any other
molecule `dest`; the selection has the atoms of `v` and the source molecule `v.nframes`
frames.  Integers are written and read as one decimal digit. -/
def bufferHost (v : Vars) (source dest : List ℚ) : Host :=
  { Tcl_GetIntFromObj := readDigit
    atomselect_all := fun _ => some "atomselect0"
    sel_molid := fun _ => some "0"
    molinfo_numframes := fun _ => some (showDigit v.nframes)
    sel_num := fun _ => some (showDigit v.natoms)
    sel_get_float := fun _ _ => some (some v.weight)
    sel_get_int := fun _ field => some (some (if field = "user" then v.bead else v.index))
    molinfo_frame := fun _ => some (showDigit v.append_frame)
    molinfo_numatoms := fun _ => some "2"
    Tcl_EvalObjEx := fun _ c =>
      match c with
      | .gettimestep molid _ => if molid = 0 then some source else some dest
      | _ => some [] }

/-- The host `bufferHost`, except that it fails to evaluate `vmdcon`. -/
def silentHost (v : Vars) (source dest : List ℚ) : Host :=
  { bufferHost v source dest with
    Tcl_EvalObjEx := fun t c =>
      match c with
      | .vmdcon_info _ => none
      | _ => (bufferHost v source dest).Tcl_EvalObjEx t c }

/-! ## Runs: unfolding `splitBy` -/

theorem splitBy_loop_key {α : Type} (f : α → Int) (l : List α) (ag : α) (g : List α)
    (gs : List (List α)) :
    List.splitBy.loop (fun a b => f a == f b) l ag g gs =
      gs.reverse ++ ((g.reverse ++ ag :: l.takeWhile (fun x => f x == f ag)) ::
        List.splitBy (fun a b => f a == f b) (l.dropWhile (fun x => f x == f ag))) := by
  induction l generalizing ag g gs with
  | nil => simp [List.splitBy.loop]
  | cons x t ih =>
    by_cases h : f ag = f x
    · have h1 : (f ag == f x) = true := by simpa using h
      have h2 : (f x == f ag) = true := by simpa using h.symm
      rw [List.splitBy.loop, h1]
      simp only [List.takeWhile_cons, List.dropWhile_cons, h2, if_true]
      rw [ih]
      simp [h]
    · have h1 : (f ag == f x) = false := by simpa using h
      have h2 : (f x == f ag) = false := by simpa using fun e : f x = f ag => h e.symm
      have h3 : List.splitBy (fun a b => f a == f b) (x :: t) =
          List.splitBy.loop (fun a b => f a == f b) t x [] [] := rfl
      rw [List.splitBy.loop, h1]
      simp only [List.takeWhile_cons, List.dropWhile_cons, h2]
      rw [ih]
      simp only [Bool.false_eq_true, if_false]
      rw [h3, ih x [] []]
      simp

theorem splitBy_key_cons {α : Type} (f : α → Int) (a : α) (t : List α) :
    List.splitBy (fun a b => f a == f b) (a :: t) =
      (a :: t.takeWhile (fun x => f x == f a)) ::
        List.splitBy (fun a b => f a == f b) (t.dropWhile (fun x => f x == f a)) := by
  have h3 : List.splitBy (fun a b => f a == f b) (a :: t) =
      List.splitBy.loop (fun a b => f a == f b) t a [] [] := rfl
  rw [h3, splitBy_loop_key]
  simp

/-! ## The inner loop adds up one run -/

theorem atoms_length (v : Vars) : (atoms v).length = v.natoms.toNat := by
  simp [atoms]

theorem atoms_drop (v : Vars) (s : Nat) (hs : s < v.natoms.toNat) :
    (atoms v).drop s = atomAt v s :: (atoms v).drop (s + 1) := by
  have h : s < (atoms v).length := by simpa [atoms_length] using hs
  rw [List.drop_eq_getElem_cons h]
  simp [atoms]

theorem offset3_eq (source : List ℚ) (i : Int) (c : Nat) (hc : c ≤ 2)
    (hlen : source.length ≤ 4294967296) (h0 : 0 ≤ i) (h1 : 3 * i.toNat + 2 < source.length) :
    offset3 (toUnsigned i) c = 3 * i.toNat + c := by
  have hi : i.toNat < 4294967296 := by omega
  have h2 : toUnsigned i = i.toNat := by
    unfold toUnsigned
    rw [Int.emod_eq_of_lt h0 (by omega)]
  rw [h2, offset3]
  exact Nat.mod_eq_of_lt (by omega)

theorem accAdd_nil (source : List ℚ) (acc : Acc) : accAdd source acc [] = acc := by
  simp [accAdd, totalWeight, wrappedSum]

theorem comLoop_eq (v : Vars) (source : List ℚ) (b : Int) :
    ∀ (fuel s : Nat) (acc : Acc), v.natoms.toNat - s ≤ fuel →
      comLoop v source b fuel s acc =
        some (s + (((atoms v).drop s).takeWhile (fun a => a.groupLabel == b)).length,
          accAdd source acc (((atoms v).drop s).takeWhile (fun a => a.groupLabel == b))) := by
  intro fuel
  induction fuel with
  | zero =>
    intro s acc hf
    have hnot : ¬ ((s : Int) < v.natoms) := by omega
    have hd : (atoms v).drop s = [] := by
      apply List.drop_eq_nil_of_le
      rw [atoms_length]; omega
    simp [comLoop, hnot, hd, accAdd_nil]
  | succ fuel ih =>
    intro s acc hf
    by_cases hlt : s < v.natoms.toNat
    · have hlt' : (s : Int) < v.natoms := by omega
      rw [atoms_drop v s hlt]
      by_cases hb : v.bead.getD s 0 = b
      · have hlab : ((atomAt v s).groupLabel == b) = true := by simpa [atomAt] using hb
        rw [comLoop, if_pos ⟨hlt', hb⟩]
        simp only [List.takeWhile_cons, hlab, if_true, List.length_cons]
        rw [ih (s + 1) _ (by omega)]
        simp only [accAdd, totalWeight, wrappedSum, List.map_cons, List.sum_cons, atomAt]
        congr 2
        · omega
        · congr 1 <;> ring
      · have hlab : ((atomAt v s).groupLabel == b) = false := by simpa [atomAt] using hb
        have hc : ¬ ((s : Int) < v.natoms ∧ v.bead.getD s 0 = b) := fun h => hb h.2
        rw [comLoop, if_neg hc]
        simp [List.takeWhile_cons, hlab, accAdd_nil]
    · have hnot : ¬ ((s : Int) < v.natoms) := by omega
      have hd : (atoms v).drop s = [] := by
        apply List.drop_eq_nil_of_le
        rw [atoms_length]; omega
      simp [comLoop, hnot, hd, accAdd_nil]

/-! ## The bead loop walks over the runs -/

theorem takeWhile_length_le {α : Type} (p : α → Bool) (l : List α) :
    (l.takeWhile p).length ≤ l.length := by
  induction l with
  | nil => simp
  | cons a t ih =>
    rw [List.takeWhile_cons]
    split
    · simp only [List.length_cons]; omega
    · simp

theorem drop_takeWhile_length {α : Type} (p : α → Bool) (l : List α) :
    l.drop (l.takeWhile p).length = l.dropWhile p := by
  induction l with
  | nil => simp
  | cons a t ih =>
    rw [List.takeWhile_cons, List.dropWhile_cons]
    split <;> simp [ih]

theorem accAdd_zero_w (source : List ℚ) (r : List Atom) :
    (accAdd source ⟨0, 0, 0, 0⟩ r).w = totalWeight r := by
  simp [accAdd]

theorem beadLoop_eq (v : Vars) (source : List ℚ) :
    ∀ (fuel s j : Nat) (d : List ℚ), v.natoms.toNat - s ≤ fuel →
      beadLoop v source fuel s j d =
        some (writeRuns source
          (((atoms v).drop s).splitBy (fun a b => a.groupLabel == b.groupLabel)) j d) := by
  intro fuel
  induction fuel with
  | zero =>
    intro s j d hf
    have hnot : ¬ ((s : Int) < v.natoms) := by omega
    have hd : (atoms v).drop s = [] := by
      apply List.drop_eq_nil_of_le
      rw [atoms_length]; omega
    simp [beadLoop, hnot, hd, writeRuns]
  | succ fuel ih =>
    intro s j d hf
    by_cases hlt : s < v.natoms.toNat
    · have hlt' : (s : Int) < v.natoms := by omega
      have hrun := comLoop_eq v source (v.bead.getD s 0) v.natoms.toNat s ⟨0, 0, 0, 0⟩
        (by omega)
      have hdrop := atoms_drop v s hlt
      have hlab : (atomAt v s).groupLabel = v.bead.getD s 0 := rfl
      rw [beadLoop, if_pos hlt']
      simp only []
      rw [hrun, hdrop, splitBy_key_cons (fun a : Atom => a.groupLabel)]
      simp only [List.takeWhile_cons, hlab, beq_self_eq_true, if_true, List.length_cons]
      rw [writeRuns, accAdd_zero_w]
      by_cases hz : totalWeight (atomAt v s ::
          List.takeWhile (fun a => a.groupLabel == v.bead.getD s 0) ((atoms v).drop (s + 1))) = 0
      · rw [if_pos hz, if_pos hz]
      · rw [if_neg hz, if_neg hz]
        have hlen : (List.takeWhile (fun a => a.groupLabel == v.bead.getD s 0)
            ((atoms v).drop (s + 1))).length ≤ ((atoms v).drop (s + 1)).length :=
          takeWhile_length_le _ _
        have hlen2 : ((atoms v).drop (s + 1)).length = v.natoms.toNat - (s + 1) := by
          simp [atoms_length]
        rw [ih _ _ _ (by omega)]
        congr 2
        have h3 : (atoms v).drop (s + ((List.takeWhile (fun a => a.groupLabel == v.bead.getD s 0)
            ((atoms v).drop (s + 1))).length + 1)) =
            List.dropWhile (fun a => a.groupLabel == v.bead.getD s 0) ((atoms v).drop (s + 1)) := by
          rw [← drop_takeWhile_length, List.drop_drop]
          congr 1
          omega
        rw [h3]
    · have hnot : ¬ ((s : Int) < v.natoms) := by omega
      have hd : (atoms v).drop s = [] := by
        apply List.drop_eq_nil_of_le
        rw [atoms_length]; omega
      simp [beadLoop, hnot, hd, writeRuns]

theorem beadLoop_runs (v : Vars) (source : List ℚ) (d : List ℚ) :
    beadLoop v source v.natoms.toNat 0 0 d = some (writeRuns source (runs v) 0 d) := by
  have h := beadLoop_eq v source v.natoms.toNat 0 0 d (by omega)
  simpa [runs] using h

/-! ## The stores of the bead loop -/

theorem storeBead_length (d : List ℚ) (j : Nat) (acc : Acc) :
    (storeBead d j acc).length = d.length := by
  simp [storeBead]

theorem storeBead_getD_of_ne (d : List ℚ) (j : Nat) (acc : Acc) (p : Nat)
    (h0 : p ≠ 3 * j) (h1 : p ≠ 3 * j + 1) (h2 : p ≠ 3 * j + 2) :
    (storeBead d j acc).getD p 0 = d.getD p 0 := by
  simp only [storeBead, List.getD_eq_getElem?_getD]
  rw [List.getElem?_set_ne (Ne.symm h2), List.getElem?_set_ne (Ne.symm h1),
    List.getElem?_set_ne (Ne.symm h0)]

theorem storeBead_getD_x (d : List ℚ) (j : Nat) (acc : Acc) (h : 3 * j + 2 < d.length) :
    (storeBead d j acc).getD (3 * j) 0 = acc.x / acc.w := by
  simp only [storeBead, List.getD_eq_getElem?_getD]
  rw [List.getElem?_set_ne (by omega), List.getElem?_set_ne (by omega),
    List.getElem?_set_self (by omega)]
  rfl

theorem storeBead_getD_y (d : List ℚ) (j : Nat) (acc : Acc) (h : 3 * j + 2 < d.length) :
    (storeBead d j acc).getD (3 * j + 1) 0 = acc.y / acc.w := by
  simp only [storeBead, List.getD_eq_getElem?_getD]
  rw [List.getElem?_set_ne (by omega), List.getElem?_set_self (by simp; omega)]
  rfl

theorem storeBead_getD_z (d : List ℚ) (j : Nat) (acc : Acc) (h : 3 * j + 2 < d.length) :
    (storeBead d j acc).getD (3 * j + 2) 0 = acc.z / acc.w := by
  simp only [storeBead, List.getD_eq_getElem?_getD]
  rw [List.getElem?_set_self (by simp; omega)]
  rfl

/-- Component `c` of the centroid of a run. -/
theorem storeBead_getD_c (source : List ℚ) (d : List ℚ) (j : Nat) (r : List Atom) (c : Nat)
    (hc : c ≤ 2) (h : 3 * j + 2 < d.length) :
    (storeBead d j (accAdd source ⟨0, 0, 0, 0⟩ r)).getD (3 * j + c) 0 =
      wrappedSum source c r / totalWeight r := by
  have hc' : c = 0 ∨ c = 1 ∨ c = 2 := by omega
  rcases hc' with rfl | rfl | rfl
  · rw [Nat.add_zero, storeBead_getD_x _ _ _ h]; simp [accAdd]
  · rw [storeBead_getD_y _ _ _ h]; simp [accAdd]
  · rw [storeBead_getD_z _ _ _ h]; simp [accAdd]

theorem writeRuns_length (source : List ℚ) (rs : List (List Atom)) :
    ∀ (j : Nat) (d : List ℚ), (writeRuns source rs j d).coords_append.length = d.length := by
  induction rs with
  | nil => intro j d; rfl
  | cons r rs ih =>
    intro j d
    rw [writeRuns]
    split
    · rfl
    · rw [ih, storeBead_length]

theorem writeRuns_getD_lt (source : List ℚ) (rs : List (List Atom)) :
    ∀ (j : Nat) (d : List ℚ) (p : Nat), p < 3 * j →
      (writeRuns source rs j d).coords_append.getD p 0 = d.getD p 0 := by
  induction rs with
  | nil => intro j d p _; rfl
  | cons r rs ih =>
    intro j d p hp
    rw [writeRuns]
    split
    · rfl
    · rw [ih _ _ _ (by omega), storeBead_getD_of_ne _ _ _ _ (by omega) (by omega) (by omega)]

/-- Bead `j + i` holds the centroid of run `i` when no run up to `i` has total weight zero. -/
theorem writeRuns_getD_bead (source : List ℚ) (rs : List (List Atom)) :
    ∀ (j : Nat) (d : List ℚ) (i c : Nat), i < rs.length →
      (∀ k, k ≤ i → totalWeight (rs.getD k []) ≠ 0) → c ≤ 2 → 3 * (j + i) + 2 < d.length →
      (writeRuns source rs j d).coords_append.getD (3 * (j + i) + c) 0 =
        wrappedSum source c (rs.getD i []) / totalWeight (rs.getD i []) := by
  induction rs with
  | nil => intro j d i c hi; simp at hi
  | cons r rs ih =>
    intro j d i c hi hnz hc hd
    have h0 : totalWeight r ≠ 0 := by simpa using hnz 0 (Nat.zero_le _)
    rw [writeRuns, if_neg h0]
    cases i with
    | zero =>
      rw [writeRuns_getD_lt _ _ _ _ _ (by omega)]
      simpa using storeBead_getD_c source d j r c hc (by simpa using hd)
    | succ i =>
      have h := ih (j + 1) (storeBead d j (accAdd source ⟨0, 0, 0, 0⟩ r)) i c
        (by simpa using hi) (fun k hk => by simpa using hnz (k + 1) (by omega)) hc
        (by rw [storeBead_length]; omega)
      have e : 3 * (j + (i + 1)) + c = 3 * (j + 1 + i) + c := by omega
      rw [e, h]
      simp

/-- The walk ends with `ok` exactly when every run has non-zero total weight; the bead counter
then equals the number of runs. -/
theorem writeRuns_ok (source : List ℚ) (rs : List (List Atom)) :
    ∀ (j : Nat) (d : List ℚ), (∀ r ∈ rs, totalWeight r ≠ 0) →
      (writeRuns source rs j d).ok = true ∧ (writeRuns source rs j d).j = j + rs.length := by
  induction rs with
  | nil => intro j d _; exact ⟨rfl, rfl⟩
  | cons r rs ih =>
    intro j d h
    have h0 : totalWeight r ≠ 0 := h r (List.mem_cons_self _ _)
    rw [writeRuns, if_neg h0]
    obtain ⟨h1, h2⟩ := ih (j + 1) (storeBead d j (accAdd source ⟨0, 0, 0, 0⟩ r))
      (fun r' hr' => h r' (List.mem_cons_of_mem _ hr'))
    refine ⟨h1, ?_⟩
    rw [h2, List.length_cons]; omega

theorem framesOf_append (t u : List Cmd) : framesOf (t ++ u) = framesOf t ++ framesOf u := by
  simp [framesOf, List.filterMap_append]

/-- What an aborting pass through the loop body adds to the trace. -/
theorem frameBody_abort (h : Host) (v : Vars) (P f af : Int) (t : List Cmd) (ca : List ℚ)
    (o : Outcome) :
    frameBody h v P f af t ca = some (.abort o) →
    ∃ rest : List Cmd,
      o.trace = t ++ rest ∧ o.code = TCL_ERROR ∧
      (framesOf rest = [] ∨ framesOf rest = [f]) ∧
      (∀ g, Cmd.vmdcon_info g ∈ rest → g = f ∧ f.tmod P = 0) ∧
      (∀ g, Cmd.molinfo_top_set_frame g ∈ rest →
        g = f ∧ (f.tmod P = 0 → Cmd.vmdcon_info f ∈ rest)) := by
  unfold frameBody
  simp only []
  by_cases hP : f.tmod P = 0
  all_goals
    simp only [hP, if_true, if_false, true_and, false_and]
    repeat' split
    all_goals
      intro hs
      first
      | (simp only [Option.some.injEq, Step.abort.injEq] at hs
         subst hs
         simp only [List.append_assoc, List.append_nil]
         refine ⟨_, rfl, ?_, ?_, ?_, ?_⟩
         all_goals (simp_all [framesOf]))
      | (simp at hs)

/-- What a completed pass through the loop body adds to the trace. -/
theorem frameBody_next (h : Host) (v : Vars) (P f af : Int) (t : List Cmd) (ca : List ℚ)
    (af' : Int) (t' : List Cmd) (ca' : List ℚ) :
    frameBody h v P f af t ca = some (.next af' t' ca') →
    ∃ rest : List Cmd,
      t' = t ++ rest ∧ af' = wrapInt (af + 1) ∧ framesOf rest = [f] ∧
      (∀ g, Cmd.vmdcon_info g ∈ rest → g = f ∧ f.tmod P = 0) ∧
      (∀ g, Cmd.molinfo_top_set_frame g ∈ rest →
        g = f ∧ (f.tmod P = 0 → Cmd.vmdcon_info f ∈ rest)) := by
  unfold frameBody
  simp only []
  by_cases hP : f.tmod P = 0
  all_goals
    simp only [hP, if_true, if_false, true_and, false_and]
    repeat' split
    all_goals
      intro hs
      first
      | (simp only [Option.some.injEq, Step.next.injEq] at hs
         obtain ⟨h1, h2, h3⟩ := hs
         subst h1 h2 h3
         simp only [List.append_assoc, List.append_nil]
         refine ⟨_, rfl, ?_, ?_, ?_, ?_⟩
         all_goals (simp_all [framesOf]))
      | (simp at hs)

/-- One pass through the loop body always ends. -/
theorem frameBody_ne_none (h : Host) (v : Vars) (P f af : Int) (t : List Cmd) (ca : List ℚ) :
    frameBody h v P f af t ca ≠ none := by
  unfold frameBody
  simp only []
  repeat' split
  all_goals
    first
    | (simp; done)
    | (rename_i hb; rw [beadLoop_runs] at hb; simp at hb)

/-! ## The frame loop -/

theorem TCL_ERROR_ne_OK : TCL_ERROR ≠ TCL_OK := by decide

theorem range_succ_map_affine (f s : Int) (n : Nat) :
    (List.range (n + 1)).map (fun k : Nat => f + (k : Int) * s) =
      f :: (List.range n).map (fun k : Nat => f + s + (k : Int) * s) := by
  rw [List.range_succ_eq_map, List.map_cons, List.map_map]
  simp only [Nat.cast_zero, zero_mul, add_zero, List.cons.injEq, true_and]
  apply List.map_congr_left
  intro k _
  simp only [Function.comp, Nat.cast_succ]
  ring

theorem wrapInt_of_range (i : Int) (h1 : -2147483648 ≤ i) (h2 : i ≤ 2147483647) :
    wrapInt i = i := by
  unfold wrapInt
  omega

/-- What the frame loop adds to the trace, whatever the host does. -/
theorem frameLoop_trace (h : Host) (v : Vars) (L P : Int) :
    ∀ (fuel : Nat) (frame af : Int) (t : List Cmd) (ca : List ℚ) (o : Outcome),
      frameLoop h v L P fuel frame af t ca = some o →
      ∃ rest : List Cmd, o.trace = t ++ rest ∧
        (o.code = TCL_OK ∨ o.code = TCL_ERROR) ∧
        (o.code = TCL_OK → o.result = some "") ∧
        (∀ g, Cmd.vmdcon_info g ∈ rest → g.tmod P = 0) ∧
        (∀ g, Cmd.molinfo_top_set_frame g ∈ rest → g.tmod P = 0 →
          Cmd.vmdcon_info g ∈ rest) := by
  intro fuel
  induction fuel with
  | zero =>
    intro frame af t ca o ho
    rw [frameLoop] at ho
    split at ho
    · simp at ho
    · simp only [Option.some.injEq] at ho
      subst ho
      exact ⟨[], by simp, Or.inl rfl, fun _ => rfl, by simp, by simp⟩
  | succ fuel ih =>
    intro frame af t ca o ho
    rw [frameLoop] at ho
    split at ho
    · split at ho
      · simp at ho
      · rename_i o' hb
        simp only [Option.some.injEq] at ho
        subst ho
        obtain ⟨rest, h1, h2, _, h5, h6⟩ := frameBody_abort h v P frame af t ca _ hb
        have hne : ¬ (o'.code = TCL_OK) := by rw [h2]; exact TCL_ERROR_ne_OK
        exact ⟨rest, h1, Or.inr h2, fun hk => absurd hk hne,
          fun g hg => by rw [(h5 g hg).1]; exact (h5 g hg).2,
          fun g hg hg0 => by
            obtain ⟨e, hv⟩ := h6 g hg
            subst e
            exact hv hg0⟩
      · rename_i af' t' ca' hb
        obtain ⟨rest1, h1, _, _, h5, h6⟩ := frameBody_next h v P frame af t ca _ _ _ hb
        obtain ⟨rest2, g1, g4, g5, g7, g8⟩ := ih _ _ _ _ _ ho
        refine ⟨rest1 ++ rest2, ?_, g4, g5, ?_, ?_⟩
        · rw [g1, h1, List.append_assoc]
        · intro g hg
          rcases List.mem_append.1 hg with hm | hm
          · rw [(h5 g hm).1]; exact (h5 g hm).2
          · exact g7 g hm
        · intro g hg hg0
          rcases List.mem_append.1 hg with hm | hm
          · obtain ⟨e, hv⟩ := h6 g hm
            subst e
            exact List.mem_append_left _ (hv hg0)
          · exact List.mem_append_right _ (g8 g hm hg0)
    · simp only [Option.some.injEq] at ho
      subst ho
      exact ⟨[], by simp, Or.inl rfl, fun _ => rfl, by simp, by simp⟩

/-- The frames the loop maps, as long as no sum `frame + stride` formed at a frame that
satisfies the loop condition leaves the range of `int`. -/
theorem frameLoop_frames (h : Host) (v : Vars) (L P lo : Int) (hs : 0 ≤ v.stride)
    (hw : ∀ x : Int, lo ≤ x → (x ≤ L ∧ x < v.nframes) →
      wrapInt (x + v.stride) = x + v.stride) :
    ∀ (fuel : Nat) (frame af : Int) (t : List Cmd) (ca : List ℚ) (o : Outcome),
      lo ≤ frame → frameLoop h v L P fuel frame af t ca = some o →
      ∃ (n : Nat) (rest : List Cmd), o.trace = t ++ rest ∧
        framesOf rest = (List.range n).map (fun k : Nat => frame + (k : Int) * v.stride) ∧
        (∀ k : Nat, k < n →
          frame + (k : Int) * v.stride ≤ L ∧ frame + (k : Int) * v.stride < v.nframes) ∧
        (o.code = TCL_OK →
          ¬ (frame + (n : Int) * v.stride ≤ L ∧ frame + (n : Int) * v.stride < v.nframes)) := by
  intro fuel
  induction fuel with
  | zero =>
    intro frame af t ca o _ ho
    rw [frameLoop] at ho
    split at ho
    · simp at ho
    · rename_i hc
      simp only [Option.some.injEq] at ho
      subst ho
      exact ⟨0, [], by simp, by simp [framesOf], by simp, fun _ => by simpa using hc⟩
  | succ fuel ih =>
    intro frame af t ca o hlo ho
    rw [frameLoop] at ho
    split at ho
    · rename_i hc
      split at ho
      · simp at ho
      · rename_i o' hb
        simp only [Option.some.injEq] at ho
        subst ho
        obtain ⟨rest, h1, h2, h3, _⟩ := frameBody_abort h v P frame af t ca _ hb
        have hne : ¬ (o'.code = TCL_OK) := by rw [h2]; exact TCL_ERROR_ne_OK
        rcases h3 with h3 | h3
        · exact ⟨0, rest, h1, by simpa using h3, by simp, fun hk => absurd hk hne⟩
        · refine ⟨1, rest, h1, by simp [h3, List.range_succ], ?_, fun hk => absurd hk hne⟩
          intro k hk
          have : k = 0 := by omega
          subst this
          simpa using hc
      · rename_i af' t' ca' hb
        obtain ⟨rest1, h1, _, h3, _⟩ := frameBody_next h v P frame af t ca _ _ _ hb
        rw [hw frame hlo hc] at ho
        obtain ⟨n, rest2, g1, g2, g3, g5⟩ := ih _ _ _ _ _ (by omega) ho
        refine ⟨n + 1, rest1 ++ rest2, ?_, ?_, ?_, ?_⟩
        · rw [g1, h1, List.append_assoc]
        · rw [framesOf_append, h3, g2, range_succ_map_affine]
          rfl
        · intro k hk
          cases k with
          | zero => simpa using hc
          | succ k =>
            have := g3 k (by omega)
            have e : frame + ((k + 1 : Nat) : Int) * v.stride =
                frame + v.stride + (k : Int) * v.stride := by push_cast; ring
            rw [e]
            exact this
        · intro hk
          have e : frame + ((n + 1 : Nat) : Int) * v.stride =
              frame + v.stride + (n : Int) * v.stride := by push_cast; ring
          rw [e]
          exact g5 hk
    · rename_i hc
      simp only [Option.some.injEq] at ho
      subst ho
      exact ⟨0, [], by simp, by simp [framesOf], by simp, fun _ => by simpa using hc⟩

/-- Under the bound `upperBound v + stride <= 2^31` no sum `frame + stride` formed by the
frame loop of a job with `0 <= first` and `1 <= stride` leaves the range of `int`. -/
theorem no_wrap_of_bound (v : Vars) (h0 : 0 ≤ v.first) (hs : 1 ≤ v.stride)
    (hno : min (normalizeLast v.first v.last v.nframes) (v.nframes - 1) + v.stride ≤ 2147483647)
    (x : Int) (hx : v.first ≤ x)
    (hc : x ≤ normalizeLast v.first v.last v.nframes ∧ x < v.nframes) :
    wrapInt (x + v.stride) = x + v.stride := by
  apply wrapInt_of_range
  · omega
  · have := min_le_left (normalizeLast v.first v.last v.nframes) (v.nframes - 1)
    have := min_le_right (normalizeLast v.first v.last v.nframes) (v.nframes - 1)
    rcases le_total (normalizeLast v.first v.last v.nframes) (v.nframes - 1) with hm | hm
    · rw [min_eq_left hm] at hno
      omega
    · rw [min_eq_right hm] at hno
      omega

/-! ## The schedule of the frame loop -/

theorem loop_cond_iff (v : Vars) (x : Int) :
    (x ≤ normalizeLast v.first v.last v.nframes ∧ x < v.nframes) ↔ x < upperBound v := by
  unfold upperBound
  generalize normalizeLast v.first v.last v.nframes = L
  omega

theorem lt_iterations_iff (v : Vars) (hs : 1 ≤ v.stride) (k : Nat) :
    k < iterations v ↔ v.first + (k : Int) * v.stride < upperBound v := by
  unfold iterations
  generalize upperBound v = B
  have hs0 : 0 < v.stride := by omega
  rw [Int.lt_toNat]
  constructor
  · intro hk
    have h1 : (k : Int) + 1 ≤ (B - v.first + v.stride - 1) / v.stride := by omega
    have h2 := (Int.le_ediv_iff_mul_le hs0).1 h1
    nlinarith
  · intro hk
    have h2 : ((k : Int) + 1) * v.stride ≤ B - v.first + v.stride - 1 := by nlinarith
    have h1 := (Int.le_ediv_iff_mul_le hs0).2 h2
    omega

theorem iterations_eq_ceil (v : Vars) (hs : 1 ≤ v.stride) :
    iterations v = (Int.ceil (((upperBound v - v.first : Int) : ℚ) / (v.stride : ℚ))).toNat := by
  have hs0 : (0 : ℚ) < (v.stride : ℚ) := by exact_mod_cast (by omega : 0 < v.stride)
  apply Nat.le_antisymm
  · by_contra hlt
    push_neg at hlt
    have h1 := (lt_iterations_iff v hs _).1 hlt
    have h2 := Int.self_le_toNat (Int.ceil (((upperBound v - v.first : Int) : ℚ) / (v.stride : ℚ)))
    have h4 := Int.le_ceil (((upperBound v - v.first : Int) : ℚ) / (v.stride : ℚ))
    have h5 : ((Int.ceil (((upperBound v - v.first : Int) : ℚ) / (v.stride : ℚ)) : Int) : ℚ) ≤
        (((Int.ceil (((upperBound v - v.first : Int) : ℚ) / (v.stride : ℚ))).toNat : Int) : ℚ) := by
      exact_mod_cast h2
    have h6 := (div_le_iff₀ hs0).1 (le_trans h4 h5)
    have h3 : (v.first : ℚ) + (((Int.ceil (((upperBound v - v.first : Int) : ℚ) /
        (v.stride : ℚ))).toNat : Int) : ℚ) * (v.stride : ℚ) < (upperBound v : ℚ) := by
      exact_mod_cast h1
    push_cast at h6 h3
    linarith
  · by_contra hlt
    push_neg at hlt
    have h1 : (iterations v : Int) < Int.ceil (((upperBound v - v.first : Int) : ℚ) /
        (v.stride : ℚ)) := Int.lt_toNat.1 hlt
    rw [Int.lt_ceil, lt_div_iff₀ hs0] at h1
    have h2 : ¬ (iterations v < iterations v) := lt_irrefl _
    apply h2
    rw [lt_iterations_iff v hs]
    have h3 : (v.first : ℚ) + (iterations v : ℚ) * (v.stride : ℚ) < (upperBound v : ℚ) := by
      push_cast at h1
      linarith
    exact_mod_cast h3

theorem nat_eq_of_lt_iff (n m : Nat) (H : ∀ k : Nat, k < n ↔ k < m) : n = m := by
  have h1 := H n
  have h2 := H m
  omega

/-- A successful job mapped exactly the scheduled frames. -/
theorem mapFrames_ok_frames (h : Host) (v : Vars) (fuel : Nat) (o : Outcome)
    (h0 : 0 ≤ v.first) (hs : 1 ≤ v.stride)
    (hno : min (normalizeLast v.first v.last v.nframes) (v.nframes - 1) + v.stride ≤ 2147483647)
    (hrun : mapFrames h v fuel = some o) (hok : o.code = TCL_OK) :
    framesOf o.trace = schedule v ∧ o.result = some "" := by
  unfold mapFrames at hrun
  obtain ⟨_, _, _, g6, _⟩ := frameLoop_trace h v _ _ _ _ _ _ _ _ hrun
  have hres := g6 hok
  obtain ⟨n, rest, g1, g2, g3, g5⟩ := frameLoop_frames h v _ _ v.first (by omega)
    (no_wrap_of_bound v h0 hs hno) _ _ _ _ _ _ (le_refl _) hrun
  have hexit := g5 hok
  have hn : n = iterations v := by
    apply nat_eq_of_lt_iff
    intro k
    rw [lt_iterations_iff v hs]
    constructor
    · intro hk
      exact (loop_cond_iff v _).1 (g3 k hk)
    · intro hk
      by_contra hge
      push_neg at hge
      apply hexit
      rw [loop_cond_iff]
      have : (n : Int) * v.stride ≤ (k : Int) * v.stride := by
        have : (n : Int) ≤ (k : Int) := by exact_mod_cast hge
        nlinarith
      omega
  refine ⟨?_, hres⟩
  rw [g1, List.nil_append, g2, hn, schedule]

/-! ## Termination and success of the frame loop -/

/-- An aborting pass is caused by the host or by a run of total weight zero. -/
theorem frameBody_abort_cause (h : Host) (v : Vars) (P f af : Int) (t : List Cmd) (ca : List ℚ)
    (o : Outcome) :
    frameBody h v P f af t ca = some (.abort o) →
      (∃ t' c, h.Tcl_EvalObjEx t' c = none) ∨
      (∃ coords bytes r, beadLoop v coords v.natoms.toNat 0 0 bytes = some r ∧ r.ok = false) := by
  unfold frameBody
  simp only []
  repeat' split
  all_goals
    intro hs
    first
    | (exact Or.inl ⟨_, _, by assumption⟩)
    | (exact Or.inr ⟨_, _, _, by assumption, by assumption⟩)
    | (rename_i hc _; exact Or.inl ⟨_, _, hc.2⟩)
    | (simp at hs; done)

theorem beadLoop_ok_of_runs (v : Vars) (hnz : ∀ r ∈ runs v, totalWeight r ≠ 0)
    (coords bytes : List ℚ) (r : BeadResult)
    (hr : beadLoop v coords v.natoms.toNat 0 0 bytes = some r) : r.ok = true := by
  rw [beadLoop_runs] at hr
  simp only [Option.some.injEq] at hr
  rw [← hr]
  exact (writeRuns_ok coords (runs v) 0 bytes hnz).1

/-- With a host that never fails and no run of total weight zero, a pass reaches the end of
the loop body. -/
theorem frameBody_ok (h : Host) (v : Vars) (P f af : Int) (t : List Cmd) (ca : List ℚ)
    (hh : ∀ t' c, h.Tcl_EvalObjEx t' c ≠ none) (hnz : ∀ r ∈ runs v, totalWeight r ≠ 0) :
    ∃ af' t' ca', frameBody h v P f af t ca = some (.next af' t' ca') := by
  cases hb : frameBody h v P f af t ca with
  | none => exact absurd hb (frameBody_ne_none h v P f af t ca)
  | some s =>
    cases s with
    | next af' t' ca' => exact ⟨af', t', ca', rfl⟩
    | abort o =>
      rcases frameBody_abort_cause h v P f af t ca o hb with ⟨t', c, hc⟩ | ⟨coords, bytes, r, hr, hf⟩
      · exact absurd hc (hh t' c)
      · have := beadLoop_ok_of_runs v hnz coords bytes r hr
        rw [hf] at this
        exact absurd this (by decide)

/-- The frame loop ends within `fuel` passes when at most `fuel` values of `frame` satisfy
the loop condition. -/
theorem frameLoop_terminates (h : Host) (v : Vars) (L P lo : Int) (hs : 0 ≤ v.stride)
    (hw : ∀ x : Int, lo ≤ x → (x ≤ L ∧ x < v.nframes) →
      wrapInt (x + v.stride) = x + v.stride) :
    ∀ (fuel : Nat) (frame af : Int) (t : List Cmd) (ca : List ℚ), lo ≤ frame →
      (∀ k : Nat, frame + (k : Int) * v.stride ≤ L ∧ frame + (k : Int) * v.stride < v.nframes →
        k < fuel) →
      ∃ o, frameLoop h v L P fuel frame af t ca = some o := by
  intro fuel
  induction fuel with
  | zero =>
    intro frame af t ca _ hk
    have hc : ¬ (frame ≤ L ∧ frame < v.nframes) := fun hc =>
      absurd (hk 0 (by simpa using hc)) (Nat.lt_irrefl 0)
    rw [frameLoop, if_neg hc]
    exact ⟨_, rfl⟩
  | succ fuel ih =>
    intro frame af t ca hlo hk
    rw [frameLoop]
    split
    · rename_i hc0
      cases hb : frameBody h v P frame af t ca with
      | none => exact absurd hb (frameBody_ne_none h v P frame af t ca)
      | some s =>
        cases s with
        | abort o => exact ⟨o, rfl⟩
        | next af' t' ca' =>
          simp only []
          rw [hw frame hlo hc0]
          apply ih _ _ _ _ (by omega)
          intro k hc
          have e : frame + ((k + 1 : Nat) : Int) * v.stride =
              frame + v.stride + (k : Int) * v.stride := by push_cast; ring
          have := hk (k + 1) (by rw [e]; exact hc)
          omega
    · exact ⟨_, rfl⟩

/-- With a host that never fails and no run of total weight zero the frame loop does not
return an error. -/
theorem frameLoop_ok (h : Host) (v : Vars) (L P : Int)
    (hh : ∀ t' c, h.Tcl_EvalObjEx t' c ≠ none) (hnz : ∀ r ∈ runs v, totalWeight r ≠ 0) :
    ∀ (fuel : Nat) (frame af : Int) (t : List Cmd) (ca : List ℚ) (o : Outcome),
      frameLoop h v L P fuel frame af t ca = some o → o.code = TCL_OK := by
  intro fuel
  induction fuel with
  | zero =>
    intro frame af t ca o ho
    rw [frameLoop] at ho
    split at ho
    · simp at ho
    · simp only [Option.some.injEq] at ho
      rw [← ho]
  | succ fuel ih =>
    intro frame af t ca o ho
    rw [frameLoop] at ho
    split at ho
    · obtain ⟨af', t', ca', hb⟩ := frameBody_ok h v P frame af t ca hh hnz
      rw [hb] at ho
      exact ih _ _ _ _ _ ho
    · simp only [Option.some.injEq] at ho
      rw [← ho]

/-- With `stride = 0` the loop variable never changes: if the loop condition holds at the
start, the host never fails and no run has total weight zero, the frame loop exhausts every
fuel. -/
theorem frameLoop_diverges (h : Host) (v : Vars) (L P : Int) (hs : v.stride = 0)
    (hh : ∀ t' c, h.Tcl_EvalObjEx t' c ≠ none) (hnz : ∀ r ∈ runs v, totalWeight r ≠ 0) :
    ∀ (fuel : Nat) (frame af : Int) (t : List Cmd) (ca : List ℚ),
      -2147483648 ≤ frame → frame ≤ 2147483647 →
      frame ≤ L ∧ frame < v.nframes → frameLoop h v L P fuel frame af t ca = none := by
  intro fuel
  induction fuel with
  | zero =>
    intro frame af t ca _ _ hc
    rw [frameLoop, if_pos hc]
  | succ fuel ih =>
    intro frame af t ca h1 h2 hc
    obtain ⟨af', t', ca', hb⟩ := frameBody_ok h v P frame af t ca hh hnz
    rw [frameLoop, if_pos hc, hb]
    simp only []
    rw [hs, add_zero, wrapInt_of_range frame h1 h2]
    exact ih _ _ _ _ h1 h2 hc

theorem first_satisfies_cond (v : Vars) (h1 : v.first < v.nframes) :
    v.first ≤ normalizeLast v.first v.last v.nframes ∧ v.first < v.nframes := by
  refine ⟨?_, h1⟩
  unfold normalizeLast
  split
  · omega
  · rename_i hn
    push_neg at hn
    omega

/-! ## Notices do not interfere -/

theorem quietTrace_append (t u : List Cmd) :
    quietTrace (t ++ u) = quietTrace t ++ quietTrace u := by
  simp [quietTrace]

theorem quietTrace_notice (P f : Int) :
    quietTrace (if f.tmod P = 0 then [Cmd.vmdcon_info f] else []) = [] := by
  split <;> simp [quietTrace, Cmd.isNotice]

theorem quietTrace_single (c : Cmd) (hc : c.isNotice = false) : quietTrace [c] = [c] := by
  simp [quietTrace, hc]

theorem quietTrace_cons (c : Cmd) (t : List Cmd) :
    quietTrace (c :: t) = if c.isNotice = true then quietTrace t else c :: quietTrace t := by
  cases hc : c.isNotice <;> simp [quietTrace, hc]

/-- Two passes that differ only in the interval of the notices, started after traces that
agree up to notices, agree up to notices. -/
theorem frameBody_quiet (h : Host) (v : Vars) (P P' f af : Int) (t1 t2 : List Cmd)
    (ca : List ℚ) (g : List Cmd → Cmd → Option (List ℚ))
    (H1 : ∀ t f, h.Tcl_EvalObjEx t (Cmd.vmdcon_info f) ≠ none)
    (H2 : ∀ t c, c.isNotice = false → h.Tcl_EvalObjEx t c = g (quietTrace t) c)
    (ht : quietTrace t1 = quietTrace t2) :
    (frameBody h v P f af t1 ca).map Step.quiet = (frameBody h v P' f af t2 ca).map Step.quiet := by
  unfold frameBody
  simp only [H1, and_false, if_false]
  simp only [H2 _ (Cmd.molinfo_top_set_frame _) rfl, H2 _ (Cmd.gettimestep _ _) rfl,
    H2 _ (Cmd.animate_dup _) rfl, quietTrace_single (Cmd.animate_dup _) rfl,
    H2 _ (Cmd.molinfo_set_frame _ _) rfl, H2 _ (Cmd.molinfo_set_pbc _ _) rfl,
    H2 _ (Cmd.rawtimestep _ _ _) rfl,
    quietTrace_append, quietTrace_notice, List.append_nil, ht,
    quietTrace_single (Cmd.molinfo_top_set_frame _) rfl, quietTrace_single (Cmd.gettimestep _ _) rfl,
    quietTrace_single (Cmd.molinfo_set_frame _ _) rfl, quietTrace_single (Cmd.molinfo_set_pbc _ _) rfl,
    quietTrace_single (Cmd.rawtimestep _ _ _) rfl]
  repeat' split
  all_goals
    simp_all [Step.quiet, Outcome.quiet, quietTrace_append, quietTrace_notice, quietTrace_cons,
      Cmd.isNotice, quietTrace_single (Cmd.animate_dup _) rfl,
      quietTrace_single (Cmd.molinfo_top_set_frame _) rfl, quietTrace_single (Cmd.gettimestep _ _) rfl,
      quietTrace_single (Cmd.molinfo_set_frame _ _) rfl, quietTrace_single (Cmd.molinfo_set_pbc _ _) rfl,
      quietTrace_single (Cmd.rawtimestep _ _ _) rfl]

/-- Two runs of the frame loop that differ only in the interval of the notices agree up to
notices, when the host accepts every notice and ignores the notices evaluated before. -/
theorem frameLoop_quiet (h : Host) (v : Vars) (L P P' : Int)
    (g : List Cmd → Cmd → Option (List ℚ))
    (H1 : ∀ t f, h.Tcl_EvalObjEx t (Cmd.vmdcon_info f) ≠ none)
    (H2 : ∀ t c, c.isNotice = false → h.Tcl_EvalObjEx t c = g (quietTrace t) c) :
    ∀ (fuel : Nat) (frame af : Int) (t1 t2 : List Cmd) (ca : List ℚ),
      quietTrace t1 = quietTrace t2 →
      (frameLoop h v L P fuel frame af t1 ca).map Outcome.quiet =
        (frameLoop h v L P' fuel frame af t2 ca).map Outcome.quiet := by
  intro fuel
  induction fuel with
  | zero =>
    intro frame af t1 t2 ca ht
    rw [frameLoop, frameLoop]
    split
    · rfl
    · simp [Outcome.quiet, ht]
  | succ fuel ih =>
    intro frame af t1 t2 ca ht
    rw [frameLoop, frameLoop]
    split
    · have hb := frameBody_quiet h v P P' frame af t1 t2 ca g H1 H2 ht
      cases hb1 : frameBody h v P frame af t1 ca with
      | none =>
        cases hb2 : frameBody h v P' frame af t2 ca with
        | none => rfl
        | some s2 => rw [hb1, hb2] at hb; simp at hb
      | some s1 =>
        cases hb2 : frameBody h v P' frame af t2 ca with
        | none => rw [hb1, hb2] at hb; simp at hb
        | some s2 =>
          rw [hb1, hb2] at hb
          simp only [Option.map_some', Option.some.injEq] at hb
          cases s1 with
          | abort o1 =>
            cases s2 with
            | abort o2 =>
              simp only [Step.quiet, Step.abort.injEq] at hb
              simp [hb]
            | next a2 u2 c2 => simp [Step.quiet] at hb
          | next a1 u1 c1 =>
            cases s2 with
            | abort o2 => simp [Step.quiet] at hb
            | next a2 u2 c2 =>
              simp only [Step.quiet, Step.next.injEq] at hb
              obtain ⟨e1, e2, e3⟩ := hb
              subst e1 e3
              exact ih _ _ _ _ _ e2
    · simp [Outcome.quiet, ht]

/-! ## Runs and buffers inside their bounds -/

theorem mem_atoms_of_mem_runs (v : Vars) (r : List Atom) (a : Atom) (hr : r ∈ runs v)
    (ha : a ∈ r) : a ∈ atoms v := by
  have h := List.flatten_splitBy (fun a b : Atom => a.groupLabel == b.groupLabel) (atoms v)
  rw [← h]
  exact List.mem_flatten.2 ⟨r, hr, ha⟩

theorem atom_inBounds (v : Vars) (source : List ℚ) (hW : WellSized v) (hB : InBounds v source)
    (a : Atom) (ha : a ∈ atoms v) :
    0 ≤ a.physicalIndex ∧ 3 * a.physicalIndex.toNat + 2 < source.length := by
  simp only [atoms, List.mem_map, List.mem_range] at ha
  obtain ⟨i, hi, rfl⟩ := ha
  have hl : i < v.index.length := by
    have := hW.2.2; omega
  have hm : v.index.getD i 0 ∈ v.index := by
    rw [List.getD_eq_getElem _ _ hl]
    exact List.getElem_mem _
  exact hB.2 _ hm

theorem wrappedSum_eq_weightedSum (source : List ℚ) (c : Nat) (r : List Atom) (hc : c ≤ 2)
    (hlen : source.length ≤ 4294967296)
    (hr : ∀ a ∈ r, 0 ≤ a.physicalIndex ∧ 3 * a.physicalIndex.toNat + 2 < source.length) :
    wrappedSum source c r = weightedSum source c r := by
  unfold wrappedSum weightedSum
  congr 1
  apply List.map_congr_left
  intro a ha
  rw [offset3_eq source _ c hc hlen (hr a ha).1 (hr a ha).2]

theorem getD_runs_mem (v : Vars) (j : Nat) (hj : j < (runs v).length) :
    (runs v).getD j [] ∈ runs v := by
  rw [List.getD_eq_getElem _ _ hj]
  exact List.getElem_mem _

theorem run_wrappedSum (v : Vars) (source : List ℚ) (hW : WellSized v) (hB : InBounds v source)
    (j c : Nat) (hj : j < (runs v).length) (hc : c ≤ 2) :
    wrappedSum source c ((runs v).getD j []) = weightedSum source c ((runs v).getD j []) :=
  wrappedSum_eq_weightedSum source c _ hc hB.1 fun a ha =>
    atom_inBounds v source hW hB a (mem_atoms_of_mem_runs v _ a (getD_runs_mem v j hj) ha)

/-- Bead `j` of a frame holds the weighted centroid of run `j`, provided the bead loop gets
that far. -/
theorem bead_centroid_stored (v : Vars) (source d : List ℚ) (j c : Nat)
    (hW : WellSized v) (hB : InBounds v source) (hj : j < (runs v).length)
    (hnz : ∀ k, k ≤ j → totalWeight ((runs v).getD k []) ≠ 0)
    (hc : c ≤ 2) (hd : 3 * j + 2 < d.length) :
    ∃ r, beadLoop v source v.natoms.toNat 0 0 d = some r ∧
      r.coords_append.getD (3 * j + c) 0 =
        weightedSum source c ((runs v).getD j []) / totalWeight ((runs v).getD j []) := by
  refine ⟨_, beadLoop_runs v source d, ?_⟩
  have h := writeRuns_getD_bead source (runs v) 0 d j c hj hnz hc (by simpa using hd)
  rw [Nat.zero_add] at h
  rw [h, run_wrappedSum v source hW hB j c hj hc]

/-! ## The first atom of a run -/

/-- The runs from run `j` on are the runs of the atoms that follow the first `j` runs. -/
theorem splitBy_drop {α : Type} (f : α → Int) :
    ∀ (j : Nat) (l : List α),
      (l.splitBy (fun a b => f a == f b)).drop j =
        (l.drop ((l.splitBy (fun a b => f a == f b)).take j).flatten.length).splitBy
          (fun a b => f a == f b) := by
  intro j
  induction j with
  | zero => intro l; simp
  | succ j ih =>
    intro l
    cases l with
    | nil => simp
    | cons a t =>
      rw [splitBy_key_cons]
      simp only [List.drop_succ_cons, List.take_succ_cons, List.flatten_cons, List.length_append,
        List.length_cons]
      rw [ih]
      congr 1
      rw [← drop_takeWhile_length (fun x => f x == f a) t, List.drop_drop,
        Nat.add_right_comm _ 1 _, List.drop_succ_cons]

/-- Index of the first atom of run `j`. -/
theorem runStart_spec (v : Vars) (j : Nat) (hj : j < (runs v).length) :
    ∃ t, (atoms v).drop ((runs v).take j).flatten.length =
        atomAt v ((runs v).take j).flatten.length :: t ∧
      ((runs v).take j).flatten.length < v.natoms.toNat ∧
      (runs v).getD j [] = atomAt v ((runs v).take j).flatten.length ::
        t.takeWhile (fun a => a.groupLabel ==
          (atomAt v ((runs v).take j).flatten.length).groupLabel) := by
  have h := splitBy_drop (fun a : Atom => a.groupLabel) j (atoms v)
  have hne : (runs v).drop j ≠ [] := by
    intro h0
    have := congrArg List.length h0
    simp at this
    omega
  have hlt : ((runs v).take j).flatten.length < v.natoms.toNat := by
    by_contra hge
    push_neg at hge
    apply hne
    unfold runs at hge ⊢
    rw [h, List.drop_eq_nil_of_le (by rw [atoms_length]; exact hge)]
    rfl
  have hd := atoms_drop v _ hlt
  refine ⟨_, hd, hlt, ?_⟩
  have h2 : (runs v).getD j [] = ((runs v).drop j).headD [] := by
    rw [List.getD_eq_getElem _ _ hj, List.drop_eq_getElem_cons hj]
    rfl
  rw [h2]
  unfold runs at h ⊢
  rw [h]
  unfold runs at hd
  rw [hd, splitBy_key_cons]
  rfl

/-! ## Runs of equal weight -/

theorem uniform_totalWeight (r : List Atom) (w0 : ℚ) (hu : ∀ a ∈ r, a.weight = w0) :
    totalWeight r = w0 * (r.length : ℚ) := by
  induction r with
  | nil => simp [totalWeight]
  | cons a t ih =>
    have h1 := hu a (List.mem_cons_self _ _)
    have h2 := ih (fun b hb => hu b (List.mem_cons_of_mem _ hb))
    simp only [totalWeight, List.map_cons, List.sum_cons, List.length_cons] at h2 ⊢
    rw [h2, h1]
    push_cast
    ring

theorem uniform_weightedSum (source : List ℚ) (c : Nat) (r : List Atom) (w0 : ℚ)
    (hu : ∀ a ∈ r, a.weight = w0) : weightedSum source c r = w0 * coordSum source c r := by
  induction r with
  | nil => simp [weightedSum, coordSum]
  | cons a t ih =>
    have h1 := hu a (List.mem_cons_self _ _)
    have h2 := ih (fun b hb => hu b (List.mem_cons_of_mem _ hb))
    simp only [weightedSum, coordSum, List.map_cons, List.sum_cons] at h2 ⊢
    rw [h2, h1]
    ring

theorem accAdd_zero_coord (source : List ℚ) (r : List Atom) (c : Nat) (hc : c ≤ 2) :
    (accAdd source ⟨0, 0, 0, 0⟩ r).coord c = wrappedSum source c r := by
  have hc' : c = 0 ∨ c = 1 ∨ c = 2 := by omega
  rcases hc' with rfl | rfl | rfl <;> simp [accAdd, Acc.coord]

/-- The inner loop started at the first atom of run `j` adds up exactly run `j`. -/
theorem comLoop_run (v : Vars) (source : List ℚ) (j : Nat) (hj : j < (runs v).length) :
    comLoop v source (v.bead.getD (runStart v j) 0) v.natoms.toNat (runStart v j) ⟨0, 0, 0, 0⟩ =
      some (runStart v j + ((runs v).getD j []).length,
        accAdd source ⟨0, 0, 0, 0⟩ ((runs v).getD j [])) := by
  obtain ⟨t, h1, _, h3⟩ := runStart_spec v j hj
  have h := comLoop_eq v source (v.bead.getD (runStart v j) 0) v.natoms.toNat (runStart v j)
    ⟨0, 0, 0, 0⟩ (by omega)
  have hlab : (atomAt v (runStart v j)).groupLabel = v.bead.getD (runStart v j) 0 := rfl
  unfold runStart at h hlab ⊢
  rw [h1] at h
  rw [hlab] at h3
  simp only [List.takeWhile_cons, hlab, beq_self_eq_true, if_true] at h
  rw [← h3] at h
  exact h

/-! ## Bounds on the number of passes -/

theorem length_le_flatten_length {α : Type} (L : List (List α)) (hne : ∀ r ∈ L, r ≠ []) :
    L.length ≤ L.flatten.length := by
  induction L with
  | nil => simp
  | cons r rs ih =>
    have h1 : 0 < r.length := List.length_pos.2 (hne r (List.mem_cons_self _ _))
    have h2 := ih (fun r' hr' => hne r' (List.mem_cons_of_mem _ hr'))
    simp only [List.length_cons, List.flatten_cons, List.length_append]
    omega

theorem runs_length_le (v : Vars) : (runs v).length ≤ v.natoms.toNat := by
  have h := length_le_flatten_length (runs v)
    (fun r hr => List.ne_nil_of_mem_splitBy _ hr)
  unfold runs at h ⊢
  rw [List.flatten_splitBy, atoms_length] at h
  exact h

theorem writeRuns_j_le (source : List ℚ) (rs : List (List Atom)) :
    ∀ (j : Nat) (d : List ℚ), (writeRuns source rs j d).j ≤ j + rs.length := by
  induction rs with
  | nil => intro j d; simp [writeRuns]
  | cons r rs ih =>
    intro j d
    rw [writeRuns]
    split
    · simp
    · have := ih (j + 1) (storeBead d j (accAdd source ⟨0, 0, 0, 0⟩ r))
      simp only [List.length_cons]
      omega

/-- The bead loop ends within `natoms` passes, having counted at most `natoms` beads. -/
theorem beadLoop_terminates (v : Vars) (coords d : List ℚ) :
    ∃ r, beadLoop v coords v.natoms.toNat 0 0 d = some r ∧ r.j ≤ v.natoms.toNat := by
  refine ⟨_, beadLoop_runs v coords d, ?_⟩
  have h1 := writeRuns_j_le coords (runs v) 0 d
  have h2 := runs_length_le v
  omega

/-- The inner loop consumes at least the atom it starts from and stays inside the
selection. -/
theorem comLoop_advances (v : Vars) (coords : List ℚ) (s : Nat) (acc : Acc)
    (hs : (s : Int) < v.natoms) :
    ∃ e acc', comLoop v coords (v.bead.getD s 0) v.natoms.toNat s acc = some (e, acc') ∧
      s < e ∧ e ≤ v.natoms.toNat := by
  have hlt : s < v.natoms.toNat := by omega
  refine ⟨_, _, comLoop_eq v coords (v.bead.getD s 0) v.natoms.toNat s acc (by omega), ?_, ?_⟩
  · rw [atoms_drop v s hlt]
    have hlab : ((atomAt v s).groupLabel == v.bead.getD s 0) = true := by simp [atomAt]
    simp only [List.takeWhile_cons, hlab, if_true, List.length_cons]
    omega
  · have h1 := takeWhile_length_le (fun a : Atom => a.groupLabel == v.bead.getD s 0)
      ((atoms v).drop s)
    have h2 : ((atoms v).drop s).length = v.natoms.toNat - s := by simp [atoms_length]
    omega

theorem iterations_le (v : Vars) (h1 : v.first < v.nframes) (hs : 1 ≤ v.stride) :
    iterations v ≤ (v.nframes - v.first).toNat := by
  by_contra hlt
  push_neg at hlt
  have h := (lt_iterations_iff v hs _).1 hlt
  have hB : upperBound v ≤ v.nframes := by
    unfold upperBound
    omega
  have h2 : ((v.nframes - v.first).toNat : Int) = v.nframes - v.first := Int.toNat_of_nonneg (by omega)
  rw [h2] at h
  nlinarith

/-- With enough fuel the job ends, and it has then started at most `iterations v` frames,
exactly that many if it returns `TCL_OK`. -/
theorem mapFrames_terminates (h : Host) (v : Vars) (h0 : 0 ≤ v.first) (hs : 1 ≤ v.stride)
    (hno : min (normalizeLast v.first v.last v.nframes) (v.nframes - 1) + v.stride ≤ 2147483647)
    (fuel : Nat) (hfuel : iterations v ≤ fuel) :
    ∃ o, mapFrames h v fuel = some o ∧ (framesOf o.trace).length ≤ iterations v ∧
      (o.code = TCL_OK → (framesOf o.trace).length = iterations v) := by
  have ht : ∃ o, mapFrames h v fuel = some o := by
    unfold mapFrames
    apply frameLoop_terminates h v _ _ v.first (by omega) (no_wrap_of_bound v h0 hs hno) _ _ _ _ _
      (le_refl _)
    intro k hk
    have := (lt_iterations_iff v hs k).2 ((loop_cond_iff v _).1 hk)
    omega
  obtain ⟨o, ho⟩ := ht
  refine ⟨o, ho, ?_, ?_⟩
  · have ho' := ho
    unfold mapFrames at ho'
    obtain ⟨n, rest, g1, g2, g3, _⟩ := frameLoop_frames h v _ _ v.first (by omega)
      (no_wrap_of_bound v h0 hs hno) _ _ _ _ _ _ (le_refl _) ho'
    rw [g1, List.nil_append, g2, List.length_map, List.length_range]
    by_contra hlt
    push_neg at hlt
    have h1 := (loop_cond_iff v _).1 (g3 (iterations v) hlt)
    have h2 := (lt_iterations_iff v hs (iterations v)).2 h1
    omega
  · intro hok
    rw [(mapFrames_ok_frames h v fuel o h0 hs hno ho hok).1, schedule, List.length_map,
      List.length_range]

/-- A host that never fails maps every scheduled frame of a job without zero-weight runs. -/
theorem mapFrames_succeeds (h : Host) (v : Vars) (h0 : 0 ≤ v.first) (hs : 1 ≤ v.stride)
    (hno : min (normalizeLast v.first v.last v.nframes) (v.nframes - 1) + v.stride ≤ 2147483647)
    (hh : ∀ t c, h.Tcl_EvalObjEx t c ≠ none) (hnz : ∀ r ∈ runs v, totalWeight r ≠ 0) :
    ∃ o, mapFrames h v (iterations v) = some o ∧ o.code = TCL_OK ∧
      framesOf o.trace = schedule v := by
  obtain ⟨o, ho, _⟩ := mapFrames_terminates h v h0 hs hno (iterations v) (Nat.le_refl _)
  have hok : o.code = TCL_OK := by
    have ho' := ho
    unfold mapFrames at ho'
    exact frameLoop_ok h v _ _ hh hnz _ _ _ _ _ _ ho'
  exact ⟨o, ho, hok, (mapFrames_ok_frames h v _ o h0 hs hno ho hok).1⟩

theorem schedule_pairwise (v : Vars) (hs : 1 ≤ v.stride) :
    (schedule v).Pairwise (fun a b => a < b) := by
  unfold schedule
  rw [List.pairwise_map]
  apply List.Pairwise.imp _ (List.pairwise_lt_range _)
  intro a b hab
  have : (a : Int) < (b : Int) := by exact_mod_cast hab
  nlinarith

theorem mem_schedule_iff (v : Vars) (hs : 1 ≤ v.stride) (f : Int) :
    f ∈ schedule v ↔ ∃ k : Nat, f = v.first + (k : Int) * v.stride ∧ f < upperBound v := by
  unfold schedule
  simp only [List.mem_map, List.mem_range]
  constructor
  · rintro ⟨k, hk, rfl⟩
    exact ⟨k, rfl, (lt_iterations_iff v hs k).1 hk⟩
  · rintro ⟨k, rfl, hk⟩
    exact ⟨k, (lt_iterations_iff v hs k).2 hk, rfl⟩

/-! ## Facts about the concrete inputs and the queries before the frame loop -/

theorem readDigit_0 : readDigit "0" = some 0 := by decide

theorem readDigit_1 : readDigit "1" = some 1 := by decide

theorem readDigit_2 : readDigit "2" = some 2 := by decide

theorem readDigit_3 : readDigit "3" = some 3 := by decide

theorem readDigit_4 : readDigit "4" = some 4 := by decide

theorem showDigit_0 : showDigit 0 = "0" := by decide

theorem showDigit_1 : showDigit 1 = "1" := by decide

theorem showDigit_3 : showDigit 3 = "3" := by decide

theorem showDigit_4 : showDigit 4 = "4" := by decide

theorem selectAtoms_error (h : Host) (a : Args) (o : Outcome)
    (ho : selectAtoms h a = .error o) : o.code = TCL_ERROR := by
  unfold selectAtoms at ho
  repeat' split at ho
  all_goals
    first
    | (simp only [Except.error.injEq] at ho; rw [← ho]; rfl)
    | (simp at ho; done)

theorem queryAtoms_error (h : Host) (a : Args) (atomselect : String) (o : Outcome)
    (ho : queryAtoms h a atomselect = .error o) : o.code = TCL_ERROR := by
  unfold queryAtoms at ho
  repeat' split at ho
  all_goals
    first
    | (simp only [Except.error.injEq] at ho; rw [← ho]; rfl)
    | (simp at ho; done)

theorem mapFrames_ok_result (h : Host) (v : Vars) (fuel : Nat) (o : Outcome)
    (hrun : mapFrames h v fuel = some o) (hok : o.code = TCL_OK) : o.result = some "" := by
  unfold mapFrames at hrun
  obtain ⟨_, _, _, g5, _⟩ := frameLoop_trace h v _ _ _ _ _ _ _ _ hrun
  exact g5 hok

theorem runs_exampleVars :
    runs exampleVars = [[⟨1, 0, 0⟩, ⟨1, 0, 1⟩], [⟨2, 1, 2⟩, ⟨2, 1, 3⟩]] := by decide

theorem runs_zeroFirstVars : runs zeroFirstVars = [[⟨0, 0, 0⟩], [⟨1, 1, 1⟩]] := by decide

theorem runs_singleAtom (first last stride nframes : Int) :
    runs (jobOf [1] [0] [0] first last stride nframes) = [[⟨1, 0, 0⟩]] := by
  simp [runs, atoms, jobOf, atomAt, List.range_succ, List.splitBy, List.splitBy.loop]

theorem singleAtom_no_zero_run (first last stride nframes : Int) :
    ∀ r ∈ runs (jobOf [1] [0] [0] first last stride nframes), totalWeight r ≠ 0 := by
  intro r hr
  rw [runs_singleAtom] at hr
  simp only [List.mem_singleton] at hr
  subst hr
  simp [totalWeight]

theorem wellSized_jobOf (weight : List ℚ) (bead index : List Int) (first last stride nframes : Int)
    (hb : bead.length = weight.length) (hi : index.length = weight.length) :
    WellSized (jobOf weight bead index first last stride nframes) := by
  simp [WellSized, jobOf, hb, hi]

theorem bufferHost_never_fails (v : Vars) (source dest : List ℚ) (t : List Cmd) (c : Cmd) :
    (bufferHost v source dest).Tcl_EvalObjEx t c ≠ none := by
  cases c <;> simp [bufferHost]
  split <;> simp

/-! ## What every job does -/

theorem range_map_prefix {β : Type} (f : Nat → β) (n m : Nat) (hnm : n ≤ m) :
    (List.range n).map f <+: (List.range m).map f := by
  obtain ⟨k, rfl⟩ := Nat.exists_eq_add_of_le hnm
  rw [List.range_add, List.map_append]
  exact List.prefix_append _ _

/-- Whatever the host does, the frames a job has started form an initial part of the
schedule, as long as `frame += stride` stays inside the range of `int`. -/
theorem mapFrames_frames_prefix (h : Host) (v : Vars) (fuel : Nat) (o : Outcome)
    (h0 : 0 ≤ v.first) (hs : 1 ≤ v.stride)
    (hno : min (normalizeLast v.first v.last v.nframes) (v.nframes - 1) + v.stride ≤ 2147483647)
    (hrun : mapFrames h v fuel = some o) :
    framesOf o.trace <+: schedule v := by
  unfold mapFrames at hrun
  obtain ⟨n, rest, g1, g2, g3, _⟩ := frameLoop_frames h v _ _ v.first (by omega)
    (no_wrap_of_bound v h0 hs hno) _ _ _ _ _ _ (le_refl _) hrun
  rw [g1, List.nil_append, g2, schedule]
  apply range_map_prefix
  by_contra hlt
  push_neg at hlt
  have h1 := (loop_cond_iff v _).1 (g3 (iterations v) hlt)
  have h2 := (lt_iterations_iff v hs (iterations v)).2 h1
  omega

theorem chain_key_eq {α : Type} (f : α → Int) (m : List α)
    (hc : m.Chain' (fun x y => (f x == f y) = true)) :
    ∀ a ∈ m, ∀ b ∈ m, f a = f b := by
  have key : ∀ (x : α) (t : List α), (x :: t).Chain' (fun x y => (f x == f y) = true) →
      ∀ b ∈ x :: t, f b = f x := by
    intro x t
    induction t generalizing x with
    | nil => intro _ b hb; simp at hb; rw [hb]
    | cons y t ih =>
      intro hch b hb
      rw [List.chain'_cons] at hch
      have hxy : f x = f y := by simpa using hch.1
      rcases List.mem_cons.1 hb with rfl | hb'
      · rfl
      · rw [ih y hch.2 b hb', hxy]
  cases m with
  | nil => intro a ha; simp at ha
  | cons x t =>
    intro a ha b hb
    rw [key x t hc a ha, key x t hc b hb]

/-- The runs are the maximal contiguous runs of equal label: joined they give back the atoms
in selection order, no run is empty, the atoms of a run share one label, and the last atom
of a run and the first atom of the next run have different labels. -/
theorem runs_maximal (v : Vars) :
    (runs v).flatten = atoms v ∧
    (∀ r ∈ runs v, r ≠ [] ∧ ∀ a ∈ r, ∀ b ∈ r, a.groupLabel = b.groupLabel) ∧
    (runs v).Chain' (fun r s => ∃ (hr : r ≠ []) (hs : s ≠ []),
      (r.getLast hr).groupLabel ≠ (s.head hs).groupLabel) := by
  refine ⟨List.flatten_splitBy _ _, ?_, ?_⟩
  · intro r hr
    refine ⟨List.ne_nil_of_mem_splitBy _ hr, ?_⟩
    have hc := List.chain'_of_mem_splitBy hr
    exact chain_key_eq (fun a : Atom => a.groupLabel) r hc
  · have hc := List.chain'_getLast_head_splitBy
      (fun a b : Atom => a.groupLabel == b.groupLabel) (atoms v)
    apply List.Chain'.imp _ hc
    rintro r s ⟨hr, hs, hne⟩
    exact ⟨hr, hs, by simpa using hne⟩

/-! ## Notices: a rejected notice, the interval, reading frames off a trace -/

/-- A pass whose notice the host fails to evaluate returns `TCL_ERROR` right after it. -/
theorem frameBody_failed_notice (h : Host) (v : Vars) (P f af : Int) (t : List Cmd)
    (ca : List ℚ) (hP : f.tmod P = 0) (hfail : h.Tcl_EvalObjEx t (Cmd.vmdcon_info f) = none) :
    frameBody h v P f af t ca =
      some (.abort ⟨TCL_ERROR, none, t ++ [Cmd.vmdcon_info f], ca⟩) := by
  unfold frameBody
  simp [hP, hfail]

/-- If the host never evaluates the notice of frame `f` and `f` is due for a notice, the
frame loop does not get past that notice. -/
theorem frameLoop_failed_notice (h : Host) (v : Vars) (L P f : Int) (hP : f.tmod P = 0)
    (hfail : ∀ t, h.Tcl_EvalObjEx t (Cmd.vmdcon_info f) = none) :
    ∀ (fuel : Nat) (frame af : Int) (t : List Cmd) (ca : List ℚ) (o : Outcome),
      frameLoop h v L P fuel frame af t ca = some o →
      ∃ rest, o.trace = t ++ rest ∧ Cmd.molinfo_top_set_frame f ∉ rest ∧
        (Cmd.vmdcon_info f ∈ rest → o.code = TCL_ERROR) := by
  intro fuel
  induction fuel with
  | zero =>
    intro frame af t ca o ho
    rw [frameLoop] at ho
    split at ho
    · simp at ho
    · simp only [Option.some.injEq] at ho
      subst ho
      exact ⟨[], by simp, by simp, by simp⟩
  | succ fuel ih =>
    intro frame af t ca o ho
    rw [frameLoop] at ho
    split at ho
    · by_cases hf : frame = f
      · subst hf
        rw [frameBody_failed_notice h v P frame af t ca hP (hfail t)] at ho
        simp only [Option.some.injEq] at ho
        subst ho
        exact ⟨[Cmd.vmdcon_info frame], rfl, by simp, fun _ => rfl⟩
      · split at ho
        · simp at ho
        · rename_i o' hb
          simp only [Option.some.injEq] at ho
          subst ho
          obtain ⟨rest, h1, _, _, h5, h6⟩ := frameBody_abort h v P frame af t ca _ hb
          exact ⟨rest, h1, fun hm => hf (h6 f hm).1.symm, fun hm => absurd (h5 f hm).1.symm hf⟩
        · rename_i af' t' ca' hb
          obtain ⟨rest1, h1, _, _, h5, h6⟩ := frameBody_next h v P frame af t ca _ _ _ hb
          obtain ⟨rest2, g1, g2, g3⟩ := ih _ _ _ _ _ ho
          refine ⟨rest1 ++ rest2, by rw [g1, h1, List.append_assoc], ?_, ?_⟩
          · intro hm
            rcases List.mem_append.1 hm with hm | hm
            · exact hf (h6 f hm).1.symm
            · exact g2 hm
          · intro hm
            rcases List.mem_append.1 hm with hm | hm
            · exact absurd (h5 f hm).1.symm hf
            · exact g3 hm
    · simp only [Option.some.injEq] at ho
      subst ho
      exact ⟨[], by simp, by simp, by simp⟩

theorem printInterval_eq (first last : Int) (h : first ≤ last) :
    printInterval first last = min 100 (max 10 ((last - first) / 10)) := by
  unfold printInterval
  rw [Int.tdiv_eq_ediv (by omega) (by decide)]
  simp only []
  split <;> split <;> omega

theorem tmod_eq_zero_iff_emod (f P : Int) : f.tmod P = 0 ↔ f % P = 0 := by
  rw [← Int.dvd_iff_tmod_eq_zero, Int.dvd_iff_emod_eq_zero]

theorem mem_framesOf (f : Int) (t : List Cmd) :
    f ∈ framesOf t ↔ Cmd.molinfo_top_set_frame f ∈ t := by
  induction t with
  | nil => simp [framesOf]
  | cons c t ih =>
    unfold framesOf at ih ⊢
    cases c <;> simp [List.filterMap_cons, ih]

/-! ## The fuel a job needs -/

/-- Each frame started costs one unit of fuel. -/
theorem frameLoop_frames_le_fuel (h : Host) (v : Vars) (L P : Int) :
    ∀ (fuel : Nat) (frame af : Int) (t : List Cmd) (ca : List ℚ) (o : Outcome),
      frameLoop h v L P fuel frame af t ca = some o →
      (framesOf o.trace).length ≤ (framesOf t).length + fuel := by
  intro fuel
  induction fuel with
  | zero =>
    intro frame af t ca o ho
    rw [frameLoop] at ho
    split at ho
    · simp at ho
    · simp only [Option.some.injEq] at ho
      subst ho
      simp
  | succ fuel ih =>
    intro frame af t ca o ho
    rw [frameLoop] at ho
    split at ho
    · split at ho
      · simp at ho
      · rename_i o' hb
        simp only [Option.some.injEq] at ho
        subst ho
        obtain ⟨rest, h1, _, h3, _⟩ := frameBody_abort h v P frame af t ca _ hb
        rw [h1, framesOf_append, List.length_append]
        rcases h3 with h3 | h3 <;> rw [h3] <;> simp
      · rename_i af' t' ca' hb
        obtain ⟨rest1, h1, _, h3, _⟩ := frameBody_next h v P frame af t ca _ _ _ hb
        have := ih _ _ _ _ _ ho
        rw [h1, framesOf_append, List.length_append, h3] at this
        simp only [List.length_singleton] at this
        omega
    · simp only [Option.some.injEq] at ho
      subst ho
      simp

/-- A job that returns `TCL_OK` has used at least `iterations v` units of fuel. -/
theorem mapFrames_ok_fuel (h : Host) (v : Vars) (h0 : 0 ≤ v.first) (hs : 1 ≤ v.stride)
    (hno : min (normalizeLast v.first v.last v.nframes) (v.nframes - 1) + v.stride ≤ 2147483647)
    (fuel : Nat) (o : Outcome)
    (hrun : mapFrames h v fuel = some o) (hok : o.code = TCL_OK) : iterations v ≤ fuel := by
  have h1 := (mapFrames_ok_frames h v fuel o h0 hs hno hrun hok).1
  have hrun' := hrun
  unfold mapFrames at hrun'
  have h2 := frameLoop_frames_le_fuel h v _ _ _ _ _ _ _ _ hrun'
  rw [h1, schedule, List.length_map, List.length_range] at h2
  simpa [framesOf] using h2

/-! ## The scripts of the passes -/

/-- C1 (amended). For every frame and every bead `j` such that run `j` and every earlier run
of the frame have non-zero total weight, the bead loop stores at the destination positions
`3j + c`, `c = 0, 1, 2`, the value `(sum over run j of weight[i] * source[3*physicalIndex[i]
+ c]) / (sum over run j of weight[i])`, in exact arithmetic.  The per-atom vectors have
`natoms` entries, the physical indices address triples inside the source buffer and the
destination buffer holds position `3j + 2`. -/
theorem bead_centroid_written (v : Vars) (source d : List ℚ) (j c : Nat)
    (hW : WellSized v) (hB : InBounds v source) (hj : j < (runs v).length)
    (hnz : ∀ k, k ≤ j → totalWeight ((runs v).getD k []) ≠ 0)
    (hc : c ≤ 2) (hd : 3 * j + 2 < d.length) :
    ∃ r, beadLoop v source v.natoms.toNat 0 0 d = some r ∧
      r.coords_append.getD (3 * j + c) 0 =
        weightedSum source c ((runs v).getD j []) / totalWeight ((runs v).getD j []) :=
  bead_centroid_stored v source d j c hW hB hj hnz hc hd

/-- C1, worked example: with labels `[0,0,1,1]`, weights `[1,1,2,2]`, indices `[0,1,2,3]` and
coordinates `(0,0,0),(2,0,0),(0,0,0),(4,0,0)` the loop stores bead 0 = `(1,0,0)` and
bead 1 = `(2,0,0)`. -/
theorem bead_centroid_written_witness :
    beadLoop exampleVars exampleCoords 4 0 0 [9, 9, 9, 9, 9, 9] =
        some ⟨true, 2, [1, 0, 0, 2, 0, 0]⟩ ∧
      ∃ r, beadLoop exampleVars exampleCoords 4 0 0 [9, 9, 9, 9, 9, 9] = some r ∧
        r.coords_append.getD 3 0 = 2 := by
  refine ⟨?_, ?_⟩
  · simp [beadLoop, comLoop, exampleVars, jobOf, exampleCoords, storeBead, toUnsigned, offset3]
    norm_num
  · obtain ⟨r, hr, hv⟩ := bead_centroid_written exampleVars exampleCoords [9, 9, 9, 9, 9, 9] 1 0
      (wellSized_jobOf _ _ _ _ _ _ _ rfl rfl)
      (by simp [InBounds, exampleVars, jobOf, exampleCoords])
      (by rw [runs_exampleVars]; decide)
      (by
        intro k hk
        rw [runs_exampleVars]
        interval_cases k <;> simp [totalWeight])
      (by decide) (by decide)
    refine ⟨r, hr, ?_⟩
    rw [show 3 = 3 * 1 + 0 from rfl, hv, runs_exampleVars]
    simp [weightedSum, totalWeight, exampleCoords]
    norm_num

/-- C1 as stated fails: with labels `[0,1]` and weights `[0,1]` bead 1 has total weight 1 and
its centroid has x coordinate 5, but the loop leaves on bead 0 with the zero-weight error and
stores nothing: position 3 of the destination buffer still holds 9. -/
theorem bead_after_zero_weight_run_not_written :
    totalWeight ((runs zeroFirstVars).getD 1 []) ≠ 0 ∧
      weightedSum twoAtomCoords 0 ((runs zeroFirstVars).getD 1 []) /
        totalWeight ((runs zeroFirstVars).getD 1 []) = 5 ∧
      beadLoop zeroFirstVars twoAtomCoords 2 0 0 [9, 9, 9, 9, 9, 9] =
        some ⟨false, 0, [9, 9, 9, 9, 9, 9]⟩ := by
  rw [runs_zeroFirstVars]
  refine ⟨?_, ?_, ?_⟩
  · simp [totalWeight]
  · simp [weightedSum, totalWeight, twoAtomCoords]
  · simp [beadLoop, comLoop, zeroFirstVars, jobOf, twoAtomCoords, toUnsigned, offset3]

/-- C3. For every run in which all atoms have the same non-zero weight, the centroid
computed for that run is the unweighted mean of the coordinates of its atoms: the inner loop
started at the first atom of the run stops behind its last atom with accumulators whose
quotients `x/w`, `y/w`, `z/w` are `(sum of source[3*physicalIndex[i] + c]) / (run length)`,
and these are the values found at positions `3j + c` of the destination buffer whenever the
bead loop reaches run `j`. -/
theorem equal_weight_centroid_is_mean (v : Vars) (source : List ℚ) (j c : Nat) (w0 : ℚ)
    (hW : WellSized v) (hB : InBounds v source) (hj : j < (runs v).length) (hw0 : w0 ≠ 0)
    (hu : ∀ a ∈ (runs v).getD j [], a.weight = w0) (hc : c ≤ 2) :
    (∃ e acc, comLoop v source (v.bead.getD (runStart v j) 0) v.natoms.toNat (runStart v j)
        ⟨0, 0, 0, 0⟩ = some (e, acc) ∧
      e = runStart v j + ((runs v).getD j []).length ∧ acc.w ≠ 0 ∧
      acc.coord c / acc.w =
        coordSum source c ((runs v).getD j []) / (((runs v).getD j []).length : ℚ)) ∧
    ∀ d : List ℚ, (∀ k, k < j → totalWeight ((runs v).getD k []) ≠ 0) → 3 * j + 2 < d.length →
      ∃ r, beadLoop v source v.natoms.toNat 0 0 d = some r ∧
        r.coords_append.getD (3 * j + c) 0 =
          coordSum source c ((runs v).getD j []) / (((runs v).getD j []).length : ℚ) := by
  have hne : (runs v).getD j [] ≠ [] :=
    List.ne_nil_of_mem_splitBy _ (getD_runs_mem v j hj)
  have hlen : (((runs v).getD j []).length : ℚ) ≠ 0 := by
    have : 0 < ((runs v).getD j []).length := List.length_pos.2 hne
    exact_mod_cast this.ne'
  have htw := uniform_totalWeight _ w0 hu
  have hws := uniform_weightedSum source c _ w0 hu
  have hq : weightedSum source c ((runs v).getD j []) / totalWeight ((runs v).getD j []) =
      coordSum source c ((runs v).getD j []) / (((runs v).getD j []).length : ℚ) := by
    rw [htw, hws, mul_div_mul_left _ _ hw0]
  refine ⟨⟨_, _, comLoop_run v source j hj, rfl, ?_, ?_⟩, ?_⟩
  · rw [accAdd_zero_w, htw]
    exact mul_ne_zero hw0 hlen
  · rw [accAdd_zero_w, accAdd_zero_coord _ _ _ hc, run_wrappedSum v source hW hB j c hj hc, hq]
  · intro d hprev hd
    have hnz : ∀ k, k ≤ j → totalWeight ((runs v).getD k []) ≠ 0 := by
      intro k hk
      rcases Nat.lt_or_eq_of_le hk with hlt | rfl
      · exact hprev k hlt
      · rw [htw]; exact mul_ne_zero hw0 hlen
    obtain ⟨r, hr, hv⟩ := bead_centroid_stored v source d j c hW hB hj hnz hc hd
    exact ⟨r, hr, by rw [hv, hq]⟩

/-- C3, example: bead 1 of the worked example (two atoms of weight 2 at x = 0 and x = 4) has
x coordinate `(0 + 4) / 2 = 2`. -/
theorem equal_weight_centroid_is_mean_witness :
    ∃ r, beadLoop exampleVars exampleCoords 4 0 0 [9, 9, 9, 9, 9, 9] = some r ∧
      r.coords_append.getD 3 0 = (0 + 4) / 2 := by
  have h := (equal_weight_centroid_is_mean exampleVars exampleCoords 1 0 2
    (wellSized_jobOf _ _ _ _ _ _ _ rfl rfl)
    (by simp [InBounds, exampleVars, jobOf, exampleCoords])
    (by rw [runs_exampleVars]; decide) (by norm_num)
    (by rw [runs_exampleVars]; simp) (by decide)).2 [9, 9, 9, 9, 9, 9]
    (by
      intro k hk
      rw [runs_exampleVars]
      interval_cases k
      simp [totalWeight])
    (by decide)
  obtain ⟨r, hr, hv⟩ := h
  refine ⟨r, hr, ?_⟩
  rw [show 3 = 3 * 1 + 0 from rfl, hv, runs_exampleVars]
  simp [coordSum, exampleCoords]

/-- C5 (amended). For every `nframes`, `first` with `0 <= first < nframes`, any `last` and
every `stride >= 1` with `min(last', nframes - 1) + stride <= 2^31 - 1` (no sum
`frame += stride` leaves the range of `int`) the frames to process are, in strictly
increasing order, exactly the values `first + k*stride` (`k = 0, 1, 2, ...`) below
`min(last', nframes - 1) + 1`, where `last'` is `nframes` if `last = -1`, `last > nframes` or
`last < first`, and `last` otherwise: a job that completes without error has processed
exactly these frames in this order, and a job that stops with an error has processed an
initial part of them. -/
theorem frames_processed (h : Host) (v : Vars) (fuel : Nat) (o : Outcome)
    (hfirst : 0 ≤ v.first ∧ v.first < v.nframes) (hs : 1 ≤ v.stride)
    (hno : min (normalizeLast v.first v.last v.nframes) (v.nframes - 1) + v.stride ≤ 2147483647)
    (hrun : mapFrames h v fuel = some o) :
    (∀ f : Int, f ∈ schedule v ↔
      ∃ k : Nat, f = v.first + (k : Int) * v.stride ∧
        f < min (if v.last = -1 ∨ v.last > v.nframes ∨ v.last < v.first then v.nframes
          else v.last) (v.nframes - 1) + 1) ∧
    (schedule v).Pairwise (fun a b => a < b) ∧
    framesOf o.trace <+: schedule v ∧
    (o.code = TCL_OK → framesOf o.trace = schedule v) :=
  ⟨fun f => mem_schedule_iff v hs f, schedule_pairwise v hs,
    mapFrames_frames_prefix h v fuel o hfirst.1 hs hno hrun,
    fun hok => (mapFrames_ok_frames h v fuel o hfirst.1 hs hno hrun hok).1⟩

/-- C5, examples: with `first = 0, last = -1, stride = 1, nframes = 50` the frames `0..49`
are processed (50 passes); with `first = 5, last = 5, stride = 1, nframes = 8` exactly
frame 5 is processed. -/
theorem frames_processed_witness :
    (∃ o, mapFrames (bufferHost (jobOf [1] [0] [0] 0 (-1) 1 50) [1, 2, 3] [9, 9, 9])
        (jobOf [1] [0] [0] 0 (-1) 1 50) 50 = some o ∧ o.code = TCL_OK ∧
      framesOf o.trace = (List.range 50).map (fun k : Nat => (k : Int))) ∧
    (∃ o, mapFrames (bufferHost (jobOf [1] [0] [0] 5 5 1 8) [1, 2, 3] [9, 9, 9])
        (jobOf [1] [0] [0] 5 5 1 8) 1 = some o ∧ o.code = TCL_OK ∧
      framesOf o.trace = [5]) := by
  constructor
  · obtain ⟨o, ho, hok, _⟩ := mapFrames_succeeds
      (bufferHost (jobOf [1] [0] [0] 0 (-1) 1 50) [1, 2, 3] [9, 9, 9])
      (jobOf [1] [0] [0] 0 (-1) 1 50) (by decide) (by decide) (by decide)
      (bufferHost_never_fails _ _ _) (singleAtom_no_zero_run _ _ _ _)
    have h50 : iterations (jobOf [1] [0] [0] 0 (-1) 1 50) = 50 := by decide
    rw [h50] at ho
    have h := (frames_processed _ _ _ o (by decide) (by decide) (by decide) ho).2.2.2 hok
    refine ⟨o, ho, hok, ?_⟩
    rw [h]
    decide
  · obtain ⟨o, ho, hok, _⟩ := mapFrames_succeeds
      (bufferHost (jobOf [1] [0] [0] 5 5 1 8) [1, 2, 3] [9, 9, 9])
      (jobOf [1] [0] [0] 5 5 1 8) (by decide) (by decide) (by decide)
      (bufferHost_never_fails _ _ _) (singleAtom_no_zero_run _ _ _ _)
    have h1 : iterations (jobOf [1] [0] [0] 5 5 1 8) = 1 := by decide
    rw [h1] at ho
    have h := (frames_processed _ _ _ o (by decide) (by decide) (by decide) ho).2.2.2 hok
    refine ⟨o, ho, hok, ?_⟩
    rw [h]
    decide

/-- C5 as stated fails: with `first = 1`, `last = -1`, `stride = 2147483647` and
`nframes = 3` the only value `first + k*stride` below the bound `3` is `1`, but the sum
`1 + 2147483647` does not fit the `int` variable `frame`: it is stored as `-2147483648`,
which satisfies the loop condition, and the job maps the frames `1`, `-2147483648` and `-1`
before the loop ends with `TCL_OK`. -/
theorem frames_wrap_past_int_range :
    (0 ≤ (wideStrideVars 3).first ∧ (wideStrideVars 3).first < (wideStrideVars 3).nframes ∧
      1 ≤ (wideStrideVars 3).stride) ∧
    schedule (wideStrideVars 3) = [1] ∧
    (mapFrames (bufferHost (wideStrideVars 3) [1, 2, 3] [9, 9, 9]) (wideStrideVars 3) 3).map
      (fun o => (o.code, framesOf o.trace)) = some (TCL_OK, [1, -2147483648, -1]) := by
  have hp : printInterval 1 3 = 10 := by decide
  have h1 : Int.tmod 1 10 = 1 := by decide
  have h2 : Int.tmod (-2147483648) 10 = -8 := by decide
  have h3 : Int.tmod (-1) 10 = -1 := by decide
  refine ⟨by decide, by decide, ?_⟩
  simp [mapFrames, frameLoop, frameBody, beadLoop, comLoop, wideStrideVars, jobOf, bufferHost,
    storeBead, toUnsigned, offset3, normalizeLast, hp, h1, h2, h3, framesOf, TCL_OK, wrapInt]

/-- C6 fails on the code: the option name `-firstX` is not one of the recognized names, but
`strncmp(cmd, "-first", 5)` compares five characters only and takes it for `-first`: the
command stores `first = 1`, maps the frames 1 and 2 of a three-frame trajectory and returns
`TCL_OK`.  The tests for `-last`, `-stride`, `-weight`, `-blockid` and `-order` are too short
in the same way; those for `-molid`, `-append` and `-sel` compare the terminating NUL as
well and are exact. -/
theorem unrecognized_option_accepted :
    matchOpt "-firstX" = some Opt.first ∧
    (obj_Cgmap (bufferHost (jobOf [1] [0] [0] 0 0 1 3) [1, 2, 3] [9, 9, 9])
        ["::CGit::cgmap", "-firstX", "1"] 2).map
      (fun o => (o.code, o.result, framesOf o.trace)) = some (TCL_OK, some "", [1, 2]) ∧
    matchOpt "-las" = some Opt.last ∧ matchOpt "-strid" = some Opt.stride ∧
    matchOpt "-weightless" = some Opt.weight ∧ matchOpt "-blocki" = some Opt.blockid ∧
    matchOpt "-orderly" = some Opt.order ∧
    matchOpt "-molidX" = none ∧ matchOpt "-appendX" = none ∧ matchOpt "-selX" = none := by
  have hm : matchOpt "-firstX" = some Opt.first := by decide
  have hp : printInterval 1 3 = 10 := by decide
  have h1 : Int.tmod 1 10 = 1 := by decide
  have h2 : Int.tmod 2 10 = 2 := by decide
  refine ⟨hm, ?_, by decide, by decide, by decide, by decide, by decide, by decide, by decide,
    by decide⟩
  simp [obj_Cgmap, parseArguments, hm, readDigit_0, readDigit_1, readDigit_2, readDigit_3,
    showDigit_0, showDigit_1, showDigit_3, Args.init, selectAtoms, queryAtoms, mapFrames,
    frameLoop, frameBody, beadLoop, comLoop, jobOf, bufferHost, storeBead, toUnsigned, offset3,
    normalizeLast, hp, h1, h2, framesOf, TCL_OK, wrapInt]

/-- C7 (amended). For every job whose frame loop completes without error the command
returns `TCL_OK` and its result value is the empty string. -/
theorem success_result_is_empty (h : Host) (objv : List String) (fuel : Nat) (o : Outcome)
    (hrun : obj_Cgmap h objv fuel = some o) (hok : o.code = TCL_OK) : o.result = some "" := by
  have hne : ∀ r, (failure r).code ≠ TCL_OK := fun r => TCL_ERROR_ne_OK
  unfold obj_Cgmap at hrun
  repeat' split at hrun
  all_goals
    first
    | exact mapFrames_ok_result _ _ _ _ hrun hok
    | (simp only [Option.some.injEq] at hrun
       subst hrun
       first
       | exact absurd hok (hne _)
       | (rename_i ho; rw [selectAtoms_error _ _ _ ho] at hok; exact absurd hok TCL_ERROR_ne_OK)
       | (rename_i ho; rw [queryAtoms_error _ _ _ _ ho] at hok; exact absurd hok TCL_ERROR_ne_OK))
    | (simp at hrun; done)

/-- C7, example: the job with `-last 1` over a three-frame trajectory returns the empty
string. -/
theorem success_result_is_empty_witness :
    ∃ o, obj_Cgmap (bufferHost (jobOf [1] [0] [0] 0 0 1 3) [1, 2, 3] [9, 9, 9])
        ["::CGit::cgmap", "-last", "1"] 2 = some o ∧ o.code = TCL_OK ∧ o.result = some "" := by
  have hrun : obj_Cgmap (bufferHost (jobOf [1] [0] [0] 0 0 1 3) [1, 2, 3] [9, 9, 9])
      ["::CGit::cgmap", "-last", "1"] 2 =
      some { code := TCL_OK
             result := some ""
             trace := [Cmd.vmdcon_info 0, Cmd.molinfo_top_set_frame 0, Cmd.gettimestep 0 0,
               Cmd.animate_dup 0, Cmd.molinfo_set_frame 0 0, Cmd.molinfo_set_pbc 0 0,
               Cmd.gettimestep 0 1, Cmd.rawtimestep 0 [1, 2, 3] 1,
               Cmd.molinfo_top_set_frame 1, Cmd.gettimestep 0 1, Cmd.animate_dup 0,
               Cmd.molinfo_set_frame 0 1, Cmd.molinfo_set_pbc 0 0, Cmd.gettimestep 0 2,
               Cmd.rawtimestep 0 [1, 2, 3] 2]
             coords_append := [1, 2, 3] } := by
    have hm : matchOpt "-last" = some Opt.last := by decide
    have hp : printInterval 0 1 = 10 := by decide
    have h0 : Int.tmod 0 10 = 0 := by decide
    have h1 : Int.tmod 1 10 = 1 := by decide
    simp [obj_Cgmap, parseArguments, hm, readDigit_0, readDigit_1, readDigit_2, readDigit_3,
      showDigit_0, showDigit_1, showDigit_3, Args.init, selectAtoms, queryAtoms, mapFrames,
      frameLoop, frameBody, beadLoop, comLoop, jobOf, bufferHost, storeBead, toUnsigned,
      offset3, normalizeLast, hp, h0, h1, wrapInt]
  exact ⟨_, hrun, rfl, success_result_is_empty _ _ _ _ hrun rfl⟩

/-- C7 as stated fails: the job with `-last 1` over a three-frame trajectory maps the two
frames 0 and 1 and returns `TCL_OK`, but its result value is the empty string, not the
number 2 of frames. -/
theorem success_result_not_frame_count :
    (obj_Cgmap (bufferHost (jobOf [1] [0] [0] 0 0 1 3) [1, 2, 3] [9, 9, 9])
        ["::CGit::cgmap", "-last", "1"] 2).map
      (fun o => (o.code, o.result, framesOf o.trace)) = some (TCL_OK, some "", [0, 1]) ∧
    (some "" : Option String) ≠ some "2" := by
  have hm : matchOpt "-last" = some Opt.last := by decide
  have hp : printInterval 0 1 = 10 := by decide
  have h0 : Int.tmod 0 10 = 0 := by decide
  have h1 : Int.tmod 1 10 = 1 := by decide
  refine ⟨?_, by decide⟩
  simp [obj_Cgmap, parseArguments, hm, readDigit_0, readDigit_1, readDigit_2, readDigit_3,
    showDigit_0, showDigit_1, showDigit_3, Args.init, selectAtoms, queryAtoms, mapFrames,
    frameLoop, frameBody, beadLoop, comLoop, jobOf, bufferHost, storeBead, toUnsigned, offset3,
    normalizeLast, hp, h0, h1, framesOf, TCL_OK, wrapInt]

/-- C9 (amended). For every job with valid bounds the interval `P` of the notices is
`(last' - first) div 10` clamped to `[10, 100]`, computed before the loop from the
normalized `last'`, so `10 <= P <= 100`, and a notice is issued for a processed frame `f` if
and only if `f mod P = 0`.  As long as the host evaluates every notice successfully (and
does not let the notices it has seen change its other answers) the notices have no effect
on which frames are processed: with any other interval the outcome and the other scripts
are the same.  A notice that the host fails to evaluate makes the job return `TCL_ERROR`
before the frame of that notice is processed. -/
theorem progress_notices (h : Host) (v : Vars) (fuel : Nat) (o : Outcome)
    (hfirst : 0 ≤ v.first ∧ v.first < v.nframes) (hrun : mapFrames h v fuel = some o) :
    interval v = min 100 (max 10 ((normalizeLast v.first v.last v.nframes - v.first) / 10)) ∧
    10 ≤ interval v ∧ interval v ≤ 100 ∧
    (∀ f ∈ framesOf o.trace, Cmd.vmdcon_info f ∈ o.trace ↔ f % interval v = 0) ∧
    (∀ g : List Cmd → Cmd → Option (List ℚ),
      (∀ t f, h.Tcl_EvalObjEx t (Cmd.vmdcon_info f) ≠ none) →
      (∀ t c, c.isNotice = false → h.Tcl_EvalObjEx t c = g (quietTrace t) c) →
      ∀ P' : Int,
        (frameLoop h v (normalizeLast v.first v.last v.nframes) P' fuel v.first v.append_frame
          [] []).map Outcome.quiet = some o.quiet) ∧
    ∀ f : Int, (∀ t, h.Tcl_EvalObjEx t (Cmd.vmdcon_info f) = none) →
      Cmd.vmdcon_info f ∈ o.trace → o.code = TCL_ERROR ∧ f ∉ framesOf o.trace := by
  have hP := printInterval_eq v.first (normalizeLast v.first v.last v.nframes)
    (first_satisfies_cond v hfirst.2).1
  have hrun' := hrun
  unfold mapFrames at hrun'
  simp only [] at hrun'
  obtain ⟨rest, g1, _, _, g7, g8⟩ := frameLoop_trace h v _ _ _ _ _ _ _ _ hrun'
  rw [List.nil_append] at g1
  refine ⟨hP, ?_, ?_, ?_, ?_, ?_⟩
  · unfold interval; omega
  · unfold interval; omega
  · intro f hf
    rw [mem_framesOf, g1] at hf
    rw [g1, ← tmod_eq_zero_iff_emod]
    exact ⟨fun hn => g7 f hn, fun h0 => g8 f hf h0⟩
  · intro g H1 H2 P'
    have hq := frameLoop_quiet h v (normalizeLast v.first v.last v.nframes)
      (printInterval v.first (normalizeLast v.first v.last v.nframes)) P' g H1 H2 fuel v.first
      v.append_frame [] [] [] rfl
    rw [hrun'] at hq
    rw [← hq]
    rfl
  · intro f hfail hmem
    rw [g1] at hmem
    obtain ⟨rest', e1, e2, e3⟩ := frameLoop_failed_notice h v _ _ f (g7 f hmem) hfail
      _ _ _ _ _ _ hrun'
    rw [List.nil_append] at e1
    rw [mem_framesOf, e1]
    rw [g1] at e1
    exact ⟨e3 (e1 ▸ hmem), e2⟩

/-- C9, example: in the job over the single frame of the worked example the interval is 10
and the notice for frame 0 is issued. -/
theorem progress_notices_witness :
    interval exampleVars = 10 ∧
      (Cmd.vmdcon_info 0 ∈ [Cmd.vmdcon_info 0, Cmd.molinfo_top_set_frame 0,
        Cmd.gettimestep 0 0, Cmd.animate_dup 1, Cmd.molinfo_set_frame 0 0,
        Cmd.molinfo_set_pbc 1 0, Cmd.gettimestep 1 1, Cmd.rawtimestep 1 [1, 0, 0, 2, 0, 0] 1] ↔
        (0 : Int) % interval exampleVars = 0) := by
  have hrun : mapFrames (bufferHost exampleVars exampleCoords [9, 9, 9, 9, 9, 9]) exampleVars 1 =
      some { code := TCL_OK
             result := some ""
             trace := [Cmd.vmdcon_info 0, Cmd.molinfo_top_set_frame 0, Cmd.gettimestep 0 0,
               Cmd.animate_dup 1, Cmd.molinfo_set_frame 0 0, Cmd.molinfo_set_pbc 1 0,
               Cmd.gettimestep 1 1, Cmd.rawtimestep 1 [1, 0, 0, 2, 0, 0] 1]
             coords_append := [1, 0, 0, 2, 0, 0] } := by
    have hp : printInterval 0 1 = 10 := by decide
    have h0 : Int.tmod 0 10 = 0 := by decide
    simp [mapFrames, frameLoop, frameBody, beadLoop, comLoop, exampleVars, jobOf, bufferHost,
      exampleCoords, storeBead, toUnsigned, offset3, normalizeLast, hp, h0, wrapInt]
    norm_num
  have h := progress_notices _ _ _ _ (by decide) hrun
  exact ⟨by decide, h.2.2.2.1 0 (by simp [framesOf])⟩

/-- C9 as stated fails: the hosts `bufferHost` and `silentHost` answer every script other
than the notice alike, yet with the first the job processes frame 0 and with the second,
which fails to evaluate the notice, it returns `TCL_ERROR` before frame 0 is processed. -/
theorem failed_notice_stops_job :
    (∀ t c, c.isNotice = false →
      (silentHost exampleVars exampleCoords [9, 9, 9, 9, 9, 9]).Tcl_EvalObjEx t c =
        (bufferHost exampleVars exampleCoords [9, 9, 9, 9, 9, 9]).Tcl_EvalObjEx t c) ∧
    (mapFrames (bufferHost exampleVars exampleCoords [9, 9, 9, 9, 9, 9]) exampleVars 1).map
      (fun o => (o.code, framesOf o.trace)) = some (TCL_OK, [0]) ∧
    mapFrames (silentHost exampleVars exampleCoords [9, 9, 9, 9, 9, 9]) exampleVars 1 =
      some { code := TCL_ERROR, result := none, trace := [Cmd.vmdcon_info 0],
             coords_append := [] } := by
  have hp : printInterval 0 1 = 10 := by decide
  have h0 : Int.tmod 0 10 = 0 := by decide
  refine ⟨?_, ?_, ?_⟩
  · intro t c hc
    cases c <;> simp [silentHost, Cmd.isNotice] at hc ⊢
  · simp [mapFrames, frameLoop, frameBody, beadLoop, comLoop, exampleVars, jobOf, bufferHost,
      exampleCoords, storeBead, toUnsigned, offset3, normalizeLast, hp, h0, framesOf, TCL_OK,
      wrapInt]
  · simp [mapFrames, frameLoop, frameBody, exampleVars, jobOf, silentHost, bufferHost,
      normalizeLast, hp, h0, wrapInt]

/-- C10 (amended). For every `nframes`, `first` with `0 <= first < nframes`, any `last` and
every `stride >= 1` with `min(last', nframes - 1) + stride <= 2^31 - 1` (no sum
`frame += stride` leaves the range of `int`) the frame loop ends after at most
`nframes - first` passes: the number `ceil((min(last', nframes-1) + 1 - first) / stride)` is
at most `nframes - first`, that many passes always suffice, and a job without error makes
exactly that many (with fewer passes it does not return `TCL_OK`).  Within a frame the bead
loop ends after at most `natoms` passes, because the inner loop consumes at least the atom
it starts from.  The value of `-stride` is stored unchecked, and with `stride = 0` the frame
loop of a job that meets no error never ends. -/
theorem loops_terminate :
    (∀ (h : Host) (v : Vars), 0 ≤ v.first → v.first < v.nframes → 1 ≤ v.stride →
      min (normalizeLast v.first v.last v.nframes) (v.nframes - 1) + v.stride ≤ 2147483647 →
      iterations v =
          (Int.ceil (((min (normalizeLast v.first v.last v.nframes) (v.nframes - 1) + 1
            - v.first : Int) : ℚ) / (v.stride : ℚ))).toNat ∧
        iterations v ≤ (v.nframes - v.first).toNat ∧
        (∀ fuel, iterations v ≤ fuel →
          ∃ o, mapFrames h v fuel = some o ∧ (framesOf o.trace).length ≤ iterations v ∧
            (o.code = TCL_OK → (framesOf o.trace).length = iterations v)) ∧
        ∀ fuel o, mapFrames h v fuel = some o → o.code = TCL_OK → iterations v ≤ fuel) ∧
    (∀ (v : Vars) (coords d : List ℚ),
      ∃ r, beadLoop v coords v.natoms.toNat 0 0 d = some r ∧ r.j ≤ v.natoms.toNat) ∧
    (∀ (v : Vars) (coords : List ℚ) (s : Nat) (acc : Acc), (s : Int) < v.natoms →
      ∃ e acc', comLoop v coords (v.bead.getD s 0) v.natoms.toNat s acc = some (e, acc') ∧
        s < e ∧ e ≤ v.natoms.toNat) ∧
    (∀ (h : Host) (val : String) (i : Int) (rest : List String) (a : Args),
      h.Tcl_GetIntFromObj val = some i →
        parseArguments h ("-stride" :: val :: rest) a =
          parseArguments h rest { a with stride := i }) ∧
    (∀ (h : Host) (v : Vars), v.stride = 0 → 0 ≤ v.first → v.first ≤ 2147483647 →
      v.first < v.nframes →
      (∀ t c, h.Tcl_EvalObjEx t c ≠ none) → (∀ r ∈ runs v, totalWeight r ≠ 0) →
        ∀ fuel, mapFrames h v fuel = none) := by
  refine ⟨?_, beadLoop_terminates, comLoop_advances, ?_, ?_⟩
  · intro h v h0 h1 hs hno
    exact ⟨iterations_eq_ceil v hs, iterations_le v h1 hs,
      fun fuel hfuel => mapFrames_terminates h v h0 hs hno fuel hfuel,
      fun fuel o hrun hok => mapFrames_ok_fuel h v h0 hs hno fuel o hrun hok⟩
  · intro h val i rest a hi
    have hm : matchOpt "-stride" = some Opt.stride := by decide
    rw [parseArguments, hm]
    simp only [hi]
  · intro h v hs h0 hmax h1 hh hnz fuel
    unfold mapFrames
    exact frameLoop_diverges h v _ _ hs hh hnz fuel _ _ _ _ (by omega) hmax
      (first_satisfies_cond v h1)

/-- C10, examples: the job `first = 2, last = 20, stride = 3, nframes = 8` makes
`ceil((8 - 2) / 3) = 2` passes; the bead loop on the four atoms of the worked example ends
with two beads; and the job with `stride = 0` is still running after 1000 passes. -/
theorem loops_terminate_witness :
    (∃ o, mapFrames (bufferHost (jobOf [1] [0] [0] 2 20 3 8) [1, 2, 3] [9, 9, 9])
        (jobOf [1] [0] [0] 2 20 3 8) 2 = some o ∧ (framesOf o.trace).length ≤ 2) ∧
    (∃ r, beadLoop exampleVars exampleCoords 4 0 0 [9, 9, 9, 9, 9, 9] = some r ∧ r.j ≤ 4) ∧
    mapFrames (bufferHost (jobOf [1] [0] [0] 0 (-1) 0 8) [1, 2, 3] [9, 9, 9])
        (jobOf [1] [0] [0] 0 (-1) 0 8) 1000 = none := by
  refine ⟨?_, ?_, ?_⟩
  · have h := (loops_terminate.1 (bufferHost (jobOf [1] [0] [0] 2 20 3 8) [1, 2, 3] [9, 9, 9])
      (jobOf [1] [0] [0] 2 20 3 8) (by decide) (by decide) (by decide) (by decide)).2.2.1 2
      (by decide)
    obtain ⟨o, ho, hle, _⟩ := h
    have h2 : iterations (jobOf [1] [0] [0] 2 20 3 8) = 2 := by decide
    rw [h2] at hle
    exact ⟨o, ho, hle⟩
  · exact loops_terminate.2.1 exampleVars exampleCoords [9, 9, 9, 9, 9, 9]
  · exact loops_terminate.2.2.2.2 _ _ (by decide) (by decide) (by decide) (by decide)
      (bufferHost_never_fails _ _ _) (singleAtom_no_zero_run _ _ _ _) 1000

/-- C10 as stated fails: with `first = 1`, `last = -1`, `stride = 2147483647` and
`nframes = 2` the claimed bound is `nframes - first = 1` pass (and
`ceil((2 - 1) / 2147483647) = 1`), but after the first pass the sum `1 + 2147483647` is
stored in the `int` variable `frame` as `-2147483648`, which satisfies the loop condition:
the loop is still running after two passes and ends after the third, having mapped the
frames `1`, `-2147483648` and `-1`. -/
theorem frame_loop_exceeds_bound :
    (0 ≤ (wideStrideVars 2).first ∧ (wideStrideVars 2).first < (wideStrideVars 2).nframes ∧
      1 ≤ (wideStrideVars 2).stride) ∧
    ((wideStrideVars 2).nframes - (wideStrideVars 2).first).toNat = 1 ∧
    iterations (wideStrideVars 2) = 1 ∧
    mapFrames (bufferHost (wideStrideVars 2) [1, 2, 3] [9, 9, 9]) (wideStrideVars 2) 2 = none ∧
    (mapFrames (bufferHost (wideStrideVars 2) [1, 2, 3] [9, 9, 9]) (wideStrideVars 2) 3).map
      (fun o => (o.code, framesOf o.trace)) = some (TCL_OK, [1, -2147483648, -1]) := by
  have hp : printInterval 1 2 = 10 := by decide
  have h1 : Int.tmod 1 10 = 1 := by decide
  have h2 : Int.tmod (-2147483648) 10 = -8 := by decide
  have h3 : Int.tmod (-1) 10 = -1 := by decide
  refine ⟨by decide, by decide, by decide, ?_, ?_⟩
  · simp [mapFrames, frameLoop, frameBody, beadLoop, comLoop, wideStrideVars, jobOf,
      bufferHost, storeBead, toUnsigned, offset3, normalizeLast, hp, h1, h2, h3, wrapInt]
  · simp [mapFrames, frameLoop, frameBody, beadLoop, comLoop, wideStrideVars, jobOf,
      bufferHost, storeBead, toUnsigned, offset3, normalizeLast, hp, h1, h2, h3, framesOf,
      TCL_OK, wrapInt]

end Cgmap
